import Mathlib

/-!
Ownership handles of `effective_modern_cpp` (items 18, 19, 20, 22).

A shallow embedding of the repository's demonstration programs.

* Objects under shared ownership live in a heap of control blocks.  An object
  is identified by the index of its control block; indices are never reused,
  which is the identity a `std::weak_ptr` observes.
* A `std::shared_ptr` / `std::weak_ptr` is `Option Nat`: `none` is the empty
  handle, `some o` refers to control block `o`.  Only the live count is kept:
  `lock()` and `expired()` read nothing else.
* `std::unordered_map<string, V>` is an association list; iteration follows the
  list, new keys are appended.  C++ leaves the order of iteration open, and the
  theorems about `Publish` count calls without regard to their order.
* `cout` is the list of lines written so far.
* Dereferencing an empty handle is a `UsageError`.
-/

namespace EMC

/-! ## Handle kernel -/

/-- Control block of one object: its live-reference count and the object. -/
structure Block (α : Type) where
  strong : Nat
  obj : α
deriving DecidableEq, Repr

/-- The heap of control blocks; the object created n-th has index n. -/
abbrev Heap (α : Type) := List (Block α)

/-- A `std::shared_ptr`: empty, or owning a share of control block `o`. -/
abbrev SharedPtr := Option Nat

/-- A `std::weak_ptr`: empty, or observing control block `o`. -/
abbrev WeakPtr := Option Nat

/-- Errors that the C++ program leaves undefined. -/
inductive UsageError where
  | nullDeref
  | dangling
  | doubleDelete
  | badWeakPtr
  | unbound
deriving DecidableEq, Repr

/-- Live count of control block `o` (`use_count`), 0 when there is none. -/
def useCount {α : Type} (h : Heap α) (o : Nat) : Nat :=
  match h[o]? with
  | some b => b.strong
  | none => 0

/-- Add one live reference to control block `o`. -/
def retain {α : Type} (h : Heap α) (o : Nat) : Heap α :=
  match h[o]? with
  | some b => h.set o { b with strong := b.strong + 1 }
  | none => h

/-- Drop one live reference to control block `o`. -/
def release {α : Type} (h : Heap α) (o : Nat) : Heap α :=
  match h[o]? with
  | some b => h.set o { b with strong := b.strong - 1 }
  | none => h

/-- Embedding of `shared_ptr::reset()` and the destructor of a `shared_ptr`. -/
def SharedPtr.reset {α : Type} (sp : SharedPtr) (h : Heap α) : Heap α :=
  match sp with
  | some o => release h o
  | none => h

/-- Copy construction of a `shared_ptr`. -/
def SharedPtr.copy {α : Type} (sp : SharedPtr) (h : Heap α) : SharedPtr × Heap α :=
  match sp with
  | some o => (some o, retain h o)
  | none => (none, h)

/-- Embedding of `make_shared<T>(a)` and `shared_ptr<T>(new T(a))`: a new
control block with live count 1. -/
def makeShared {α : Type} (h : Heap α) (a : α) : SharedPtr × Heap α :=
  (some h.length, h ++ [{ strong := 1, obj := a }])

/-- Embedding of `weak_ptr::expired()`. -/
def WeakPtr.expired {α : Type} (w : WeakPtr) (h : Heap α) : Bool :=
  match w with
  | some o => useCount h o == 0
  | none => true

/-- Embedding of `weak_ptr::lock()`: a new share when the object is alive,
else empty. -/
def WeakPtr.lock {α : Type} (w : WeakPtr) (h : Heap α) : SharedPtr × Heap α :=
  match w with
  | some o => if useCount h o = 0 then (none, h) else (some o, retain h o)
  | none => (none, h)

/-- Dereference of a `shared_ptr` (`operator->`): an error on the empty handle
and on a handle whose object is not alive. -/
def SharedPtr.deref {α : Type} (sp : SharedPtr) (h : Heap α) : Except UsageError α :=
  match sp with
  | some o =>
    match h[o]? with
    | some b => if b.strong = 0 then .error .dangling else .ok b.obj
    | none => .error .dangling
  | none => .error .nullDeref

/-! ## `std::unordered_map<string, V>` -/

/-- Association list standing for `unordered_map<string, V>`. -/
abbrev UMap (V : Type) := List (String × V)

/-- Embedding of `m.find(k)`. -/
def UMap.find {V : Type} : UMap V → String → Option V
  | [], _ => none
  | (k', v) :: m, k => if k' = k then some v else UMap.find m k

/-- Embedding of `m[k] = v`. -/
def UMap.assign {V : Type} : UMap V → String → V → UMap V
  | [], k, v => [(k, v)]
  | (k', v') :: m, k, v =>
    if k' = k then (k', v) :: m else (k', v') :: UMap.assign m k v

/-- Embedding of `m[k]` as an rvalue: a missing key is first inserted with the
default value `d`. -/
def UMap.index {V : Type} (m : UMap V) (k : String) (d : V) : V × UMap V :=
  match UMap.find m k with
  | some v => (v, m)
  | none => (d, UMap.assign m k d)

/-! ## Item 20, example 1: the cache -/

/-- The `Cache` object (its member `cache_`) with the heap of `string` values
it hands out and the lines it wrote to `cout`. -/
structure Cache where
  heap : Heap String
  cache_ : UMap WeakPtr
  cout : List String
deriving DecidableEq, Repr

/-- A fresh `Cache` in an empty heap. -/
def Cache.fresh : Cache := { heap := [], cache_ := [], cout := [] }

/-- The line `Cache::get` prints when it loads. -/
def loadingLine (id : String) : String := "Loading value for id " ++ id

/-- Embedding of `Cache::get(id)` (item20.cc, 27-35). -/
def Cache.get (c : Cache) (id : String) : SharedPtr × Cache :=
  let (w, cache1) := UMap.index c.cache_ id none
  let (sp, heap1) := WeakPtr.lock w c.heap
  match sp with
  | none =>
    let cout1 := c.cout ++ [loadingLine id]
    let (sp1, heap2) := makeShared heap1 "value"
    (sp1, { heap := heap2, cache_ := UMap.assign cache1 id sp1, cout := cout1 })
  | some o => (some o, { heap := heap1, cache_ := cache1, cout := c.cout })

/-- A client drops a handle it holds (`v.reset()`). -/
def Cache.clientReset (c : Cache) (sp : SharedPtr) : Cache :=
  { c with heap := SharedPtr.reset sp c.heap }

/-- The key has no entry, or its entry's weak handle is expired. -/
def Cache.miss (c : Cache) (id : String) : Bool :=
  match UMap.find c.cache_ id with
  | some w => WeakPtr.expired w c.heap
  | none => true

/-- Number of loads performed between two states of the cache: the lines
written to `cout` in between (`Cache::get` prints nothing else). -/
def Cache.loads (before after : Cache) : Nat :=
  after.cout.length - before.cout.length

/-! ### The driver of example 1 (item20.cc, 106-120)

Each step is the handle the client variable receives and the state after the
statement; the label lines `main` prints in between are left out. -/

/-- Embedding of `auto v1 = cache.get("odd")`. -/
def cacheMain_v1 : SharedPtr × Cache := Cache.get Cache.fresh "odd"

/-- Embedding of `auto v2 = cache.get("even")`. -/
def cacheMain_v2 : SharedPtr × Cache := Cache.get cacheMain_v1.2 "even"

/-- Embedding of `auto v3 = cache.get("odd")`. -/
def cacheMain_v3 : SharedPtr × Cache := Cache.get cacheMain_v2.2 "odd"

/-- Embedding of `v1.reset()`. -/
def cacheMain_v1reset : Cache := Cache.clientReset cacheMain_v3.2 cacheMain_v1.1

/-- Embedding of `auto v5 = cache.get("odd")`. -/
def cacheMain_v5 : SharedPtr × Cache := Cache.get cacheMain_v1reset "odd"

/-- Embedding of `v2.reset()`. -/
def cacheMain_v2reset : Cache := Cache.clientReset cacheMain_v5.2 cacheMain_v2.1

/-- Embedding of `auto v4 = cache.get("even")`. -/
def cacheMain_v4 : SharedPtr × Cache := Cache.get cacheMain_v2reset "even"

/-! ## Item 20, example 2: publisher and subscribers -/

/-- A `Subscriber` object: its member `id_`. -/
structure Subscriber where
  id_ : String
deriving DecidableEq, Repr

/-- Embedding of `Subscriber::GetId`. -/
def Subscriber.GetId (s : Subscriber) : String := s.id_

/-- The line `Subscriber::Receive(val)` prints. -/
def Subscriber.receiveLine (s : Subscriber) (val : Int) : String :=
  "subscriber " ++ s.id_ ++ " received val " ++ toString val

/-- The `Publisher` object (its member `subscribers_`) with the heap of
`Subscriber` objects, the lines written to `cout`, and the record of the calls
of `Subscriber::Receive` made so far: the receiving object and the argument. -/
structure Publisher where
  heap : Heap Subscriber
  subscribers_ : UMap WeakPtr
  cout : List String
  received : List (Nat × Int)
deriving DecidableEq, Repr

/-- A `Publisher` without subscribers in an empty heap. -/
def Publisher.fresh : Publisher :=
  { heap := [], subscribers_ := [], cout := [], received := [] }

/-- Embedding of `Subscriber::createSubscriber(id)` (item20.cc, 47-50). -/
def Subscriber.createSubscriber (p : Publisher) (id : String) : SharedPtr × Publisher :=
  let (sp, h) := makeShared p.heap { id_ := id }
  (sp, { p with heap := h })

/-- A client copies a handle to a subscriber. -/
def Publisher.clientCopy (p : Publisher) (sp : SharedPtr) : Publisher :=
  { p with heap := (SharedPtr.copy sp p.heap).2 }

/-- A client drops a handle to a subscriber (`sub.reset()`). -/
def Publisher.clientReset (p : Publisher) (sp : SharedPtr) : Publisher :=
  { p with heap := SharedPtr.reset sp p.heap }

/-- Embedding of `Publisher::Register(subscriber)` (item20.cc, 86-89). -/
def Publisher.Register (p : Publisher) (subscriber : SharedPtr) :
    Except UsageError Publisher :=
  match subscriber with
  | none => .ok p
  | some o =>
    match SharedPtr.deref (some o) p.heap with
    | .error e => .error e
    | .ok s => .ok { p with subscribers_ := UMap.assign p.subscribers_ s.GetId (some o) }

/-- The body of the loop of `Publisher::Publish` over the entries still to
visit (item20.cc, 73-84). The handle `sp` is dropped at the end of each
iteration. -/
def Publisher.publishLoop (val : Int) :
    List (String × WeakPtr) → Publisher → Except UsageError Publisher
  | [], p => .ok p
  | (key, subscriber) :: rest, p =>
    let (sp, heap1) := WeakPtr.lock subscriber p.heap
    match sp with
    | none =>
      Publisher.publishLoop val rest
        { p with heap := heap1,
                 cout := p.cout ++ ["skipping destroyed subscriber " ++ key] }
    | some o =>
      match SharedPtr.deref (some o) heap1 with
      | .error e => .error e
      | .ok s =>
        Publisher.publishLoop val rest
          { p with heap := SharedPtr.reset (some o) heap1,
                   cout := p.cout ++ [s.receiveLine val],
                   received := p.received ++ [(o, val)] }

/-- Embedding of `Publisher::Publish(val)` (item20.cc, 71-85). -/
def Publisher.Publish (p : Publisher) (val : Int) : Except UsageError Publisher :=
  Publisher.publishLoop val p.subscribers_
    { p with cout := p.cout ++ ["publish " ++ toString val] }

/-- The subscriber object `o` has a live registry entry: some key maps to a
weak handle observing `o`, and `o` is alive. -/
def Publisher.liveEntry (p : Publisher) (o : Nat) : Prop :=
  (∃ k, UMap.find p.subscribers_ k = some (some o)) ∧ useCount p.heap o ≠ 0

/-- States of the registry that `Register` can build: keys are distinct, and
every entry observes an object of the heap whose `id_` is the entry's key. -/
def Publisher.WF (p : Publisher) : Prop :=
  (p.subscribers_.map Prod.fst).Nodup ∧
  ∀ k w, (k, w) ∈ p.subscribers_ →
    ∃ o b, w = some o ∧ p.heap[o]? = some b ∧ b.obj.id_ = k

/-! ### The driver of example 2 (item20.cc, 127-137) -/

/-- The state after `pub.Publish(123)`, with the handles `sub1`, `sub2`. -/
def pubsubMain_123 : Except UsageError (SharedPtr × SharedPtr × Publisher) :=
  let (sub1, p1) := Subscriber.createSubscriber Publisher.fresh "sub1"
  let (sub2, p2) := Subscriber.createSubscriber p1 "sub2"
  match Publisher.Register p2 sub1 with
  | .error e => .error e
  | .ok p3 =>
    match Publisher.Register p3 sub2 with
    | .error e => .error e
    | .ok p4 =>
      match Publisher.Publish p4 123 with
      | .error e => .error e
      | .ok p5 => .ok (sub1, sub2, p5)

/-- The state after `sub1.reset(); pub.Publish(456)`. -/
def pubsubMain_456 : Except UsageError (SharedPtr × Publisher) :=
  match pubsubMain_123 with
  | .error e => .error e
  | .ok (sub1, sub2, p5) =>
    match Publisher.Publish (Publisher.clientReset p5 sub1) 456 with
    | .error e => .error e
    | .ok p6 => .ok (sub2, p6)

/-- The state after `sub1 = createSubscriber("sub1"); pub.Register(sub1);
pub.Publish(789)`, with the new `sub1`. -/
def pubsubMain_789 : Except UsageError (SharedPtr × SharedPtr × Publisher) :=
  match pubsubMain_456 with
  | .error e => .error e
  | .ok (sub2, p6) =>
    let (sub1, p7) := Subscriber.createSubscriber p6 "sub1"
    match Publisher.Register p7 sub1 with
    | .error e => .error e
    | .ok p8 =>
      match Publisher.Publish p8 789 with
      | .error e => .error e
      | .ok p9 => .ok (sub1, sub2, p9)

/-- The calls `Receive(val)` owed to a list of registry entries in heap `h`:
one per entry whose weak handle observes a live object, in the order of the
entries. -/
def Publisher.deliveries (h : Heap Subscriber) (val : Int) :
    List (String × WeakPtr) → List (Nat × Int)
  | [] => []
  | (_, some o) :: rest =>
    if useCount h o = 0 then Publisher.deliveries h val rest
    else (o, val) :: Publisher.deliveries h val rest
  | (_, none) :: rest => Publisher.deliveries h val rest

/-- States reachable from a fresh publisher by the operations of the program:
creating subscribers, copying and dropping handles, `Register` and `Publish`. -/
inductive Publisher.Reachable : Publisher → Prop
  | fresh : Publisher.Reachable Publisher.fresh
  | create (p : Publisher) (id : String) :
      Publisher.Reachable p → Publisher.Reachable (Subscriber.createSubscriber p id).2
  | copy (p : Publisher) (sp : SharedPtr) :
      Publisher.Reachable p → Publisher.Reachable (Publisher.clientCopy p sp)
  | reset (p : Publisher) (sp : SharedPtr) :
      Publisher.Reachable p → Publisher.Reachable (Publisher.clientReset p sp)
  | register (p q : Publisher) (sp : SharedPtr) :
      Publisher.Reachable p → Publisher.Register p sp = .ok q → Publisher.Reachable q
  | publish (p q : Publisher) (val : Int) :
      Publisher.Reachable p → Publisher.Publish p val = .ok q → Publisher.Reachable q

/-! ## Item 18: the factory with a custom deleter

`Investment::invest` and the member `amount_` play no part in ownership and
are left out. -/

/-- The two concrete classes derived from `Investment`. -/
inductive InvKind where
  | Stock
  | Bond
deriving DecidableEq, Repr

/-- An object created by `new Stock(arg)` or `new Bond(arg)`: its class, the
constructor argument, and whether it has not been deleted yet. -/
structure InvObj where
  kind : InvKind
  arg : String
  alive : Bool
deriving DecidableEq, Repr

/-- The destroy-action a handle carries: `std::default_delete`, or an object
of the type of the lambda `deleteFn`. -/
inductive Deleter where
  | defaultDelete
  | deleteFnType
deriving DecidableEq, Repr

/-- Embedding of `enum class InvestmentType {Stock, Bond}`: a value of the
underlying integer type; `Stock` is 0 and `Bond` is 1. -/
abbrev InvestmentType := Int

/-- Embedding of `InvestmentType::Stock`. -/
def InvestmentType.Stock : InvestmentType := 0

/-- Embedding of `InvestmentType::Bond`. -/
def InvestmentType.Bond : InvestmentType := 1

/-- The state of the program of item 18: the `Investment` objects created so
far (a pointer is an index), the control blocks of `shared_ptr<Investment>`
(each owns a pointer and a deleter), the lines on `cout`, and the record of
the invocations of `deleteFn` with their argument. -/
structure Inv where
  objects : List InvObj
  ctrl : Heap (Nat × Deleter)
  cout : List String
  deleteFnCalls : List (Option Nat)
deriving DecidableEq, Repr

/-- The program state at the start of `main`. -/
def Inv.init : Inv := { objects := [], ctrl := [], cout := [], deleteFnCalls := [] }

/-- Embedding of `unique_ptr<Investment, D>`: the pointer held and the
deleter. -/
structure UniquePtr where
  ptr : Option Nat
  deleter : Deleter
deriving DecidableEq, Repr

/-- The line printed by the destructor of the class. -/
def InvKind.dtorLine : InvKind → String
  | .Stock => "calling stock dtor."
  | .Bond => "calling bond dtor."

/-- The line printed by the constructor of the class. -/
def InvKind.ctorLine : InvKind → String → String
  | .Stock, symbol => "construct stock: " ++ symbol
  | .Bond, name => "calling bond: " ++ name

/-- Embedding of `delete investment`: nothing on a null pointer; otherwise the
virtual destructor runs and the object is gone. Deleting twice is an error. -/
def Inv.delete (w : Inv) (investment : Option Nat) : Except UsageError Inv :=
  match investment with
  | none => .ok w
  | some o =>
    match w.objects[o]? with
    | none => .error .dangling
    | some ob =>
      if ob.alive then
        .ok { w with objects := w.objects.set o { ob with alive := false },
                     cout := w.cout ++ [ob.kind.dtorLine] }
      else .error .doubleDelete

/-- The lambda `deleteFn` (item18.cc, 47-50). -/
def deleteFn (w : Inv) (investment : Option Nat) : Except UsageError Inv :=
  Inv.delete
    { w with cout := w.cout ++ ["calling custom deleteFn"],
             deleteFnCalls := w.deleteFnCalls ++ [investment] }
    investment

/-- Invocation of a deleter on a pointer. -/
def Deleter.call (d : Deleter) (w : Inv) (p : Option Nat) : Except UsageError Inv :=
  match d with
  | .defaultDelete => Inv.delete w p
  | .deleteFnType => deleteFn w p

/-- Embedding of `unique_ptr::reset(p)`: takes `p`, then runs the deleter on
the pointer held before unless that was null. Returns the handle after the
call. -/
def UniquePtr.reset (u : UniquePtr) (p : Option Nat) (w : Inv) :
    Except UsageError (UniquePtr × Inv) :=
  match u.ptr with
  | none => .ok ({ u with ptr := p }, w)
  | some old =>
    match u.deleter.call w (some old) with
    | .error e => .error e
    | .ok w1 => .ok ({ u with ptr := p }, w1)

/-- The destructor of a `unique_ptr`: runs the deleter unless the handle is
empty. -/
def UniquePtr.destroy (u : UniquePtr) (w : Inv) : Except UsageError Inv :=
  match u.ptr with
  | none => .ok w
  | some p => u.deleter.call w (some p)

/-- Move construction from a `unique_ptr`: the new handle and the source, now
empty. -/
def UniquePtr.move (u : UniquePtr) : UniquePtr × UniquePtr :=
  (u, { u with ptr := none })

/-- Embedding of `new Stock(arg)` / `new Bond(arg)`: the constructor prints
its line. -/
def Inv.new (w : Inv) (kind : InvKind) (arg : String) : Nat × Inv :=
  (w.objects.length,
    { w with objects := w.objects ++ [{ kind := kind, arg := arg, alive := true }],
             cout := w.cout ++ [kind.ctorLine arg] })

/-- Embedding of `makeInvestment(type, arg)` (item18.cc, 53-68). The local
`investment` is moved into the result and then destroyed. -/
def makeInvestment (w : Inv) (type : InvestmentType) (arg : String) :
    Except UsageError (UniquePtr × Inv) :=
  let investment : UniquePtr := { ptr := none, deleter := .deleteFnType }
  let switched : Except UsageError (UniquePtr × Inv) :=
    if type = InvestmentType.Stock then
      let (p, w1) := Inv.new w .Stock arg
      UniquePtr.reset investment (some p) w1
    else if type = InvestmentType.Bond then
      let (p, w1) := Inv.new w .Bond arg
      UniquePtr.reset investment (some p) w1
    else .ok (investment, w)
  match switched with
  | .error e => .error e
  | .ok (investment1, w2) =>
    let (result, moved) := UniquePtr.move investment1
    match UniquePtr.destroy moved w2 with
    | .error e => .error e
    | .ok w3 => .ok (result, w3)

/-- Conversion `shared_ptr<Investment>(unique_ptr&&)`: an empty handle gives
an empty `shared_ptr`; otherwise a new control block takes the pointer and the
deleter, with live count 1. -/
def UniquePtr.toShared (u : UniquePtr) (w : Inv) : SharedPtr × Inv :=
  match u.ptr with
  | none => (none, w)
  | some p =>
    (some w.ctrl.length,
      { w with ctrl := w.ctrl ++ [{ strong := 1, obj := (p, u.deleter) }] })

/-- Copy construction of a `shared_ptr<Investment>`. -/
def Inv.sharedCopy (w : Inv) (sp : SharedPtr) : SharedPtr × Inv :=
  match sp with
  | none => (none, w)
  | some c => (some c, { w with ctrl := retain w.ctrl c })

/-- The destructor (or `reset()`) of a `shared_ptr<Investment>`: the live count
drops by one, and the deleter runs on the pointer when it reaches zero. -/
def Inv.sharedRelease (w : Inv) (sp : SharedPtr) : Except UsageError Inv :=
  match sp with
  | none => .ok w
  | some c =>
    match w.ctrl[c]? with
    | none => .error .dangling
    | some b =>
      if b.strong = 0 then .error .dangling
      else if b.strong = 1 then
        b.obj.2.call { w with ctrl := release w.ctrl c } (some b.obj.1)
      else .ok { w with ctrl := release w.ctrl c }

/-- Copy a `shared_ptr<Investment>` `k` times. -/
def Inv.sharedCopies (w : Inv) (sp : SharedPtr) : Nat → Inv
  | 0 => w
  | k + 1 => Inv.sharedCopies (Inv.sharedCopy w sp).2 sp k

/-- Release `n` of the handles that share the control block of `sp`. -/
def Inv.sharedReleases (w : Inv) (sp : SharedPtr) : Nat → Except UsageError Inv
  | 0 => .ok w
  | n + 1 =>
    match Inv.sharedRelease w sp with
    | .error e => .error e
    | .ok w1 => Inv.sharedReleases w1 sp n

/-- The program `main` of item 18 without the calls of `invest`: the handles
`unique_stock`, `shared_bond_1`, `shared_bond_2` are created and, at the end of
the scope, destroyed in reverse order. -/
def investMain : Except UsageError Inv :=
  match makeInvestment Inv.init InvestmentType.Stock "GOOG" with
  | .error e => .error e
  | .ok (unique_stock, w1) =>
    match makeInvestment w1 InvestmentType.Bond "NEW_YORK_MUNI_7_YR" with
    | .error e => .error e
    | .ok (tmp, w2) =>
      let (shared_bond_1, w3) := UniquePtr.toShared tmp w2
      let (shared_bond_2, w4) := Inv.sharedCopy w3 shared_bond_1
      match Inv.sharedRelease w4 shared_bond_2 with
      | .error e => .error e
      | .ok w5 =>
        match Inv.sharedRelease w5 shared_bond_1 with
        | .error e => .error e
        | .ok w6 => UniquePtr.destroy unique_stock w6

/-! ## Item 19: a widget that shares itself -/

/-- A `Widget` object of item 19: its member `id_`. -/
structure Widget where
  id_ : String
deriving DecidableEq, Repr

/-- Embedding of `Widget::GetId`. -/
def Widget.GetId (x : Widget) : String := x.id_

/-- The state of the program of item 19: the heap of `Widget` objects, the
global vector `widgets`, and the lines on `cout`. -/
structure WidgetWorld where
  heap : Heap Widget
  widgets : List SharedPtr
  cout : List String
deriving DecidableEq, Repr

/-- The program state at the start of `main`. -/
def WidgetWorld.init : WidgetWorld := { heap := [], widgets := [], cout := [] }

/-- Embedding of `Widget::create(id)` (item19.cc, 16-19); the constructor
prints a line. -/
def Widget.create (s : WidgetWorld) (id : String) : SharedPtr × WidgetWorld :=
  let cout1 := s.cout ++ ["Calling Widget ctor. id=" ++ id]
  let (sp, h) := makeShared s.heap { id_ := id }
  (sp, { s with heap := h, cout := cout1 })

/-- Embedding of `shared_from_this()` on the object `this`: a new share of its
control block; an error when no `shared_ptr` owns the object. -/
def Widget.shared_from_this (h : Heap Widget) (this : Nat) :
    Except UsageError (SharedPtr × Heap Widget) :=
  if useCount h this = 0 then .error .badWeakPtr
  else .ok (some this, retain h this)

/-- Embedding of `Widget::process()` on the object `this` (item19.cc, 20-23). -/
def Widget.process (s : WidgetWorld) (this : Nat) : Except UsageError WidgetWorld :=
  match s.heap[this]? with
  | none => .error .dangling
  | some b =>
    let cout1 := s.cout ++ ["Calling process(). id=" ++ b.obj.id_]
    match Widget.shared_from_this s.heap this with
    | .error e => .error e
    | .ok (self, h) =>
      .ok { heap := h, widgets := s.widgets ++ [self], cout := cout1 }

/-- The call `sp->process()` through a handle. -/
def WidgetWorld.callProcess (s : WidgetWorld) (sp : SharedPtr) :
    Except UsageError WidgetWorld :=
  match sp with
  | none => .error .nullDeref
  | some o =>
    match SharedPtr.deref (some o) s.heap with
    | .error e => .error e
    | .ok _ => Widget.process s o

/-- The calls `sp->process()` for each handle of a list, in order. -/
def WidgetWorld.callProcessAll (s : WidgetWorld) :
    List SharedPtr → Except UsageError WidgetWorld
  | [] => .ok s
  | sp :: rest =>
    match WidgetWorld.callProcess s sp with
    | .error e => .error e
    | .ok s1 => WidgetWorld.callProcessAll s1 rest

/-- A caller drops a handle (`w.reset()`). -/
def WidgetWorld.clientReset (s : WidgetWorld) (sp : SharedPtr) : WidgetWorld :=
  { s with heap := SharedPtr.reset sp s.heap }

/-- The expression `sp->GetId()`. -/
def WidgetWorld.callGetId (s : WidgetWorld) (sp : SharedPtr) : Except UsageError String :=
  match SharedPtr.deref sp s.heap with
  | .error e => .error e
  | .ok x => .ok x.GetId

/-- The program `main` of item 19 (item19.cc, 35-48): the sizes of `widgets`
at the four assertions and the value of `w1->GetId()` at the last one. -/
def widgetMain : Except UsageError (List Nat × String) :=
  let (w1, s1) := Widget.create WidgetWorld.init "w1"
  let (w2, s2) := Widget.create s1 "w2"
  let (w3, h3) := SharedPtr.copy w1 s2.heap
  let s3 : WidgetWorld := { s2 with heap := h3 }
  match WidgetWorld.callProcess s3 w1 with
  | .error e => .error e
  | .ok s4 =>
    match WidgetWorld.callProcess s4 w2 with
    | .error e => .error e
    | .ok s5 =>
      match WidgetWorld.callProcess s5 w3 with
      | .error e => .error e
      | .ok s6 =>
        let s7 := WidgetWorld.clientReset s6 w3
        match WidgetWorld.callGetId s7 w1 with
        | .error e => .error e
        | .ok id =>
          .ok ([s3.widgets.length, s4.widgets.length, s5.widgets.length,
                s6.widgets.length], id)

/-! ## Item 22: the pimpl wrappers

A `UniqueWidget` variable is identified by its position in the list of the
variables declared so far; this is the address `operator=` compares. An
implementation object is identified by its position in the list of the
objects allocated so far, `none` there once it is deleted. -/

/-- Embedding of `UniqueWidget::UniqueWidgetImpl` (widget.cc, 5-8). -/
structure UniqueWidgetImpl where
  vec : List Int
  id : String
deriving DecidableEq, Repr

/-- Embedding of `UniqueWidget`: its member `impl_`, a
`unique_ptr<UniqueWidgetImpl>`. -/
structure UniqueWidget where
  impl_ : Option Nat
deriving DecidableEq, Repr

/-- The state of a program over `UniqueWidget`s: the implementation objects
allocated so far and the widget variables declared so far. -/
structure PimplState where
  impls : List (Option UniqueWidgetImpl)
  vars : List UniqueWidget
deriving DecidableEq, Repr

/-- The state before any widget is declared. -/
def PimplState.init : PimplState := { impls := [], vars := [] }

/-- Embedding of `*p` for a `unique_ptr<UniqueWidgetImpl>`. -/
def PimplState.deref (st : PimplState) (p : Option Nat) :
    Except UsageError UniqueWidgetImpl :=
  match p with
  | none => .error .nullDeref
  | some a =>
    match st.impls[a]? with
    | some (some x) => .ok x
    | _ => .error .dangling

/-- Embedding of `make_unique<UniqueWidgetImpl>(x)` (widget.h, 3-6): a new
object. -/
def PimplState.makeUnique (st : PimplState) (x : UniqueWidgetImpl) :
    Option Nat × PimplState :=
  (some st.impls.length, { st with impls := st.impls ++ [some x] })

/-- Embedding of `UniqueWidget::UniqueWidget()` (widget.cc, 11-12): declares a
variable whose `impl_` owns a value-initialised implementation. -/
def UniqueWidget.defaultCtor (st : PimplState) : PimplState :=
  let (p, st1) := PimplState.makeUnique st { vec := [], id := "" }
  { st1 with vars := st1.vars ++ [{ impl_ := p }] }

/-- Embedding of `UniqueWidget::UniqueWidget(const UniqueWidget& rhs)`
(widget.cc, 22-23): declares a variable whose `impl_` owns a copy of
`*rhs.impl_`. -/
def UniqueWidget.copyCtor (st : PimplState) (rhs : Nat) : Except UsageError PimplState :=
  match st.vars[rhs]? with
  | none => .error .unbound
  | some r =>
    match PimplState.deref st r.impl_ with
    | .error e => .error e
    | .ok x =>
      let (p, st1) := PimplState.makeUnique st x
      .ok { st1 with vars := st1.vars ++ [{ impl_ := p }] }

/-- Embedding of `UniqueWidget::UniqueWidget(UniqueWidget&& rhs) = default`:
declares a variable that takes the pointer of `rhs.impl_`, which becomes
empty. -/
def UniqueWidget.moveCtor (st : PimplState) (rhs : Nat) : Except UsageError PimplState :=
  match st.vars[rhs]? with
  | none => .error .unbound
  | some r =>
    .ok { st with vars := st.vars.set rhs { impl_ := none } ++ [{ impl_ := r.impl_ }] }

/-- Embedding of `UniqueWidget::operator=(const UniqueWidget& rhs)`
(widget.cc, 25-32) on the variable `this`. -/
def UniqueWidget.copyAssign (st : PimplState) (this rhs : Nat) :
    Except UsageError PimplState :=
  match st.vars[this]?, st.vars[rhs]? with
  | some t, some r =>
    if this ≠ rhs then
      match PimplState.deref st r.impl_ with
      | .error e => .error e
      | .ok x =>
        match t.impl_ with
        | none => .error .nullDeref
        | some a =>
          match st.impls[a]? with
          | some (some _) => .ok { st with impls := st.impls.set a (some x) }
          | _ => .error .dangling
    else .ok st
  | _, _ => .error .unbound

/-- Embedding of `UniqueWidget::operator=(UniqueWidget&& rhs) = default` on
the variable `this`: `impl_.reset(rhs.impl_.release())`, which deletes the
implementation `this` owned. -/
def UniqueWidget.moveAssign (st : PimplState) (this rhs : Nat) :
    Except UsageError PimplState :=
  match st.vars[this]?, st.vars[rhs]? with
  | some _, some r =>
    let vars1 := st.vars.set rhs { impl_ := none }
    match vars1[this]? with
    | none => .error .unbound
    | some t1 =>
      let vars2 := vars1.set this { impl_ := r.impl_ }
      match t1.impl_ with
      | none => .ok { st with vars := vars2 }
      | some old => .ok { impls := st.impls.set old none, vars := vars2 }
  | _, _ => .error .unbound

/-- A write to the hidden state of the variable `this` through its `impl_`. -/
def UniqueWidget.mutate (st : PimplState) (this : Nat) (x : UniqueWidgetImpl) :
    Except UsageError PimplState :=
  match st.vars[this]? with
  | none => .error .unbound
  | some t =>
    match t.impl_ with
    | none => .error .nullDeref
    | some a =>
      match st.impls[a]? with
      | some (some _) => .ok { st with impls := st.impls.set a (some x) }
      | _ => .error .dangling

/-- The hidden state of the variable `v`, read through its `impl_`. -/
def UniqueWidget.hidden (st : PimplState) (v : Nat) : Except UsageError UniqueWidgetImpl :=
  match st.vars[v]? with
  | none => .error .unbound
  | some t => PimplState.deref st t.impl_

/-- The statements of a program over `UniqueWidget` variables. -/
inductive WOp where
  | defaultCtor
  | copyCtor (rhs : Nat)
  | moveCtor (rhs : Nat)
  | copyAssign (this rhs : Nat)
  | moveAssign (this rhs : Nat)
deriving DecidableEq, Repr

/-- One statement. -/
def WOp.step (st : PimplState) : WOp → Except UsageError PimplState
  | .defaultCtor => .ok (UniqueWidget.defaultCtor st)
  | .copyCtor rhs => UniqueWidget.copyCtor st rhs
  | .moveCtor rhs => UniqueWidget.moveCtor st rhs
  | .copyAssign this rhs => UniqueWidget.copyAssign st this rhs
  | .moveAssign this rhs => UniqueWidget.moveAssign st this rhs

/-- A sequence of statements; the first error ends the run. -/
def WOp.run (st : PimplState) : List WOp → Except UsageError PimplState
  | [] => .ok st
  | op :: rest =>
    match WOp.step st op with
    | .error e => .error e
    | .ok st1 => WOp.run st1 rest

/-- The operands of the statement are declared variables that have not been
moved from; `moved` flags the moved-from variables. -/
def WOp.admissible (moved : List Bool) : WOp → Bool
  | .defaultCtor => true
  | .copyCtor rhs => moved[rhs]? == some false
  | .moveCtor rhs => moved[rhs]? == some false
  | .copyAssign this rhs => moved[this]? == some false && moved[rhs]? == some false
  | .moveAssign this rhs => moved[this]? == some false && moved[rhs]? == some false

/-- The moved-from flags after the statement: a constructor declares a
variable, a move from another variable flags its source. -/
def WOp.mark (moved : List Bool) : WOp → List Bool
  | .defaultCtor => moved ++ [false]
  | .copyCtor _ => moved ++ [false]
  | .moveCtor rhs => moved.set rhs true ++ [false]
  | .copyAssign _ _ => moved
  | .moveAssign this rhs => if this = rhs then moved else moved.set rhs true

/-- No statement of the sequence uses a variable after it was moved from. -/
def WOp.disciplined (moved : List Bool) : List WOp → Bool
  | [] => true
  | op :: rest => WOp.admissible moved op && WOp.disciplined (WOp.mark moved op) rest

/-- The moved-from flags after the sequence. -/
def WOp.marks (moved : List Bool) : List WOp → List Bool
  | [] => moved
  | op :: rest => WOp.marks (WOp.mark moved op) rest

/-- Unique ownership: two variables never hold the same pointer, and a
pointer held is the address of an implementation that is allocated. -/
def PimplState.WF (st : PimplState) : Prop :=
  (∀ (i j a : Nat), st.vars[i]? = some (UniqueWidget.mk (some a)) →
    st.vars[j]? = some (UniqueWidget.mk (some a)) → i = j) ∧
  (∀ (i a : Nat), st.vars[i]? = some (UniqueWidget.mk (some a)) →
    ∃ x, st.impls[a]? = some (some x))

/-- The state agrees with the moved-from flags: the variables are the flagged
positions, and a variable holds an empty `impl_` exactly when it is flagged. -/
def PimplState.Flagged (st : PimplState) (moved : List Bool) : Prop :=
  moved.length = st.vars.length ∧
  ∀ i : Nat, (moved[i]? = some true → st.vars[i]? = some (UniqueWidget.mk none)) ∧
       (moved[i]? = some false → ∃ a, st.vars[i]? = some (UniqueWidget.mk (some a)))

/-- The statements of `main` on `uw1`, `uw2`, `uw3` (main.cc, 8-12), the
variables 0, 1, 2. -/
def pimplMain : List WOp :=
  [.defaultCtor, .copyCtor 0, .moveCtor 1, .copyAssign 0 2, .moveAssign 2 0]

/-- The struct `SharedWidget::SharedWidgetImpl` is declared (widget.h, 39) and
defined nowhere: no object of it can be constructed. -/
inductive SharedWidgetImpl where

/-- Embedding of `SharedWidget`: its member `impl_`, a
`shared_ptr<SharedWidgetImpl>`. -/
structure SharedWidget where
  impl_ : SharedPtr
deriving DecidableEq, Repr

/-- The constructor the compiler generates for `SharedWidget` (widget.h,
32-41): `impl_` is default-initialised, which is the empty handle; the heap
is untouched. -/
def SharedWidget.defaultCtor (h : Heap SharedWidgetImpl) :
    SharedWidget × Heap SharedWidgetImpl :=
  ({ impl_ := none }, h)

/-- States a program over `UniqueWidget` variables can reach, from no variable
at all and without error: by the statements, and by writes to the hidden state
of a widget through its `impl_`, as member functions of the wrapper make
them. -/
inductive PimplState.Reachable : PimplState → Prop
  | init : PimplState.Reachable PimplState.init
  | step (st st1 : PimplState) (op : WOp) :
      PimplState.Reachable st → WOp.step st op = .ok st1 → PimplState.Reachable st1
  | write (st st1 : PimplState) (v : Nat) (x : UniqueWidgetImpl) :
      PimplState.Reachable st → UniqueWidget.mutate st v x = .ok st1 →
      PimplState.Reachable st1

/-- Two widgets with different hidden states: `A`, variable 0, was written to
hold `vec = [1, 2]`, `id = "a"`, and `B`, variable 1, to hold `vec = [9]`,
`id = "b"`. -/
def pimplAB : PimplState :=
  { impls := [some { vec := [1, 2], id := "a" }, some { vec := [9], id := "b" }],
    vars := [{ impl_ := some 0 }, { impl_ := some 1 }] }

/-! # Theorems -/

/-! ### Lemmas on the map -/

theorem UMap.find_assign_self {V : Type} (m : UMap V) (k : String) (v : V) :
    UMap.find (UMap.assign m k v) k = some v := by
  induction m with
  | nil => simp [UMap.assign, UMap.find]
  | cons e m ih =>
    obtain ⟨k', v'⟩ := e
    by_cases hk : k' = k
    · simp [UMap.assign, UMap.find, hk]
    · simp [UMap.assign, UMap.find, hk, ih]

theorem UMap.find_assign_ne {V : Type} (m : UMap V) (k k2 : String) (v : V)
    (hne : k ≠ k2) : UMap.find (UMap.assign m k v) k2 = UMap.find m k2 := by
  induction m with
  | nil => simp [UMap.assign, UMap.find, hne]
  | cons e m ih =>
    obtain ⟨k', v'⟩ := e
    by_cases hk : k' = k
    · subst hk
      simp [UMap.assign, UMap.find, hne]
    · by_cases hk2 : k' = k2
      · subst hk2
        simp [UMap.assign, UMap.find, hk]
      · simp [UMap.assign, UMap.find, hk, hk2, ih]

theorem UMap.assign_assign {V : Type} (m : UMap V) (k : String) (a b : V) :
    UMap.assign (UMap.assign m k a) k b = UMap.assign m k b := by
  induction m with
  | nil => simp [UMap.assign]
  | cons e m ih =>
    obtain ⟨k', v'⟩ := e
    by_cases hk : k' = k
    · simp [UMap.assign, hk]
    · simp [UMap.assign, hk, ih]

/-! ### Lemmas on the heap -/

theorem useCount_retain_self {α : Type} (h : Heap α) (o : Nat)
    (hpos : useCount h o ≠ 0) : useCount (retain h o) o = useCount h o + 1 := by
  unfold useCount retain at *
  cases hq : h[o]? with
  | none => simp [hq] at hpos
  | some b =>
    have hlt : o < h.length := by
      rcases Nat.lt_or_ge o h.length with hl | hl
      · exact hl
      · rw [List.getElem?_eq_none hl] at hq; cases hq
    simp [List.getElem?_set, hlt]

/-! ### `Cache::get` on a miss and on a hit -/

theorem Cache.get_of_miss (c : Cache) (id : String) (hm : Cache.miss c id = true) :
    Cache.get c id = (some c.heap.length,
      { heap := c.heap ++ [{ strong := 1, obj := "value" }],
        cache_ := UMap.assign c.cache_ id (some c.heap.length),
        cout := c.cout ++ [loadingLine id] }) := by
  unfold Cache.miss at hm
  cases hf : UMap.find c.cache_ id with
  | none =>
    simp [Cache.get, UMap.index, hf, WeakPtr.lock, makeShared, UMap.assign_assign]
  | some w =>
    rw [hf] at hm
    cases w with
    | none => simp [Cache.get, UMap.index, hf, WeakPtr.lock, makeShared]
    | some o =>
      have h0 : useCount c.heap o = 0 := by simpa [WeakPtr.expired] using hm
      simp [Cache.get, UMap.index, hf, WeakPtr.lock, makeShared, h0]

theorem Cache.get_of_hit (c : Cache) (id : String) (hm : Cache.miss c id = false) :
    ∃ o, UMap.find c.cache_ id = some (some o) ∧ useCount c.heap o ≠ 0 ∧
      Cache.get c id = (some o, { c with heap := retain c.heap o }) := by
  unfold Cache.miss at hm
  cases hf : UMap.find c.cache_ id with
  | none => simp [hf] at hm
  | some w =>
    rw [hf] at hm
    cases w with
    | none => simp [WeakPtr.expired] at hm
    | some o =>
      have h0 : useCount c.heap o ≠ 0 := by simpa [WeakPtr.expired] using hm
      exact ⟨o, rfl, h0, by simp [Cache.get, UMap.index, hf, WeakPtr.lock, h0]⟩

/-- After any `get(id)` the entry of `id` is alive: the returned handle holds
it. -/
theorem Cache.miss_after_get (c : Cache) (id : String) :
    Cache.miss (Cache.get c id).2 id = false := by
  cases hm : Cache.miss c id with
  | true =>
    rw [Cache.get_of_miss c id hm]
    simp [Cache.miss, UMap.find_assign_self, WeakPtr.expired, useCount]
  | false =>
    obtain ⟨o, hf, h0, hg⟩ := Cache.get_of_hit c id hm
    rw [hg]
    simp [Cache.miss, hf, WeakPtr.expired, useCount_retain_self _ _ h0]

/-! ### C1, C2 -/

/-- C1 (amended): for every cache state and key, `Cache::get(key)` performs a
load (one line on `cout`, a new value object, a weak handle to it stored under
the key) if and only if the key has no entry or its entry is expired; otherwise
it performs no load and returns a handle to the very object the entry observes,
leaving the map as it is. A second `get(key)` right after the first returns the
identical object and never loads, so the two calls together load once when the
key was absent or expired and not at all when it was alive. -/
theorem cache_get_loads_iff_miss (c : Cache) (id : String) :
    (Cache.loads c (Cache.get c id).2 = 1 ↔ Cache.miss c id = true) ∧
    (Cache.miss c id = true →
      Cache.get c id = (some c.heap.length,
        { heap := c.heap ++ [{ strong := 1, obj := "value" }],
          cache_ := UMap.assign c.cache_ id (some c.heap.length),
          cout := c.cout ++ [loadingLine id] }) ∧
      UMap.find (Cache.get c id).2.cache_ id = some (some c.heap.length)) ∧
    (Cache.miss c id = false →
      Cache.loads c (Cache.get c id).2 = 0 ∧
      ∃ o, UMap.find c.cache_ id = some (some o) ∧ useCount c.heap o ≠ 0 ∧
        Cache.get c id = (some o, { c with heap := retain c.heap o })) ∧
    (Cache.get (Cache.get c id).2 id).1 = (Cache.get c id).1 ∧
    Cache.loads (Cache.get c id).2 (Cache.get (Cache.get c id).2 id).2 = 0 ∧
    Cache.loads c (Cache.get (Cache.get c id).2 id).2 =
      (if Cache.miss c id = true then 1 else 0) := by
  have hsnd := Cache.get_of_hit _ id (Cache.miss_after_get c id)
  obtain ⟨o2, hf2, -, hg2⟩ := hsnd
  cases hm : Cache.miss c id with
  | true =>
    have hg := Cache.get_of_miss c id hm
    rw [hg] at hf2 hg2
    simp only [UMap.find_assign_self, Option.some.injEq] at hf2
    subst hf2
    refine ⟨?_, ?_, ?_, ?_, ?_, ?_⟩
    · simp [hg, Cache.loads]
    · intro _
      exact ⟨hg, by rw [hg]; exact UMap.find_assign_self _ _ _⟩
    · intro h; cases h
    · rw [hg, hg2]
    · rw [hg, hg2]; simp [Cache.loads]
    · rw [hg, hg2]; simp [Cache.loads]
  | false =>
    obtain ⟨o, hf, h0, hg⟩ := Cache.get_of_hit c id hm
    rw [hg] at hf2 hg2
    simp only [hf, Option.some.injEq] at hf2
    subst hf2
    refine ⟨?_, ?_, ?_, ?_, ?_, ?_⟩
    · simp [hg, Cache.loads]
    · intro h; cases h
    · intro _
      exact ⟨by simp [hg, Cache.loads], o, hf, h0, hg⟩
    · rw [hg, hg2]
    · rw [hg, hg2]; simp [Cache.loads]
    · rw [hg, hg2]; simp [Cache.loads]

/-- C1, at a fresh cache: the first `get("k")` loads. -/
theorem cache_get_loads_iff_miss_witness :
    Cache.miss Cache.fresh "k" = true ∧
    Cache.loads Cache.fresh (Cache.get Cache.fresh "k").2 = 1 :=
  ⟨by decide, (cache_get_loads_iff_miss Cache.fresh "k").1.mpr (by decide)⟩

/-- C1 as stated fails: in the state a first `get("k")` leaves behind, with its
handle still held, two consecutive `get("k")` calls return the identical
object but trigger no load at all, not exactly one. -/
theorem cache_get_twice_no_load :
    (Cache.get (Cache.get Cache.fresh "k").2 "k").1 =
      (Cache.get (Cache.get (Cache.get Cache.fresh "k").2 "k").2 "k").1 ∧
    Cache.loads (Cache.get Cache.fresh "k").2
      (Cache.get (Cache.get (Cache.get Cache.fresh "k").2 "k").2 "k").2 = 0 ∧
    ¬ Cache.loads (Cache.get Cache.fresh "k").2
      (Cache.get (Cache.get (Cache.get Cache.fresh "k").2 "k").2 "k").2 = 1 := by
  decide

/-- C2 (amended): in the driver, `get("odd")` and `get("even")` load, the
second `get("odd")` does not and returns the object of the first. After
`v1.reset()`, with `v3` still held, `get("odd")` performs no load and returns
that same object again. After `v2.reset()`, which drops the only handle to the
object of `"even"`, `get("even")` loads and returns a new object. -/
theorem cache_driver_scenario :
    Cache.loads Cache.fresh cacheMain_v1.2 = 1 ∧
    Cache.loads cacheMain_v1.2 cacheMain_v2.2 = 1 ∧
    Cache.loads cacheMain_v2.2 cacheMain_v3.2 = 0 ∧
    cacheMain_v3.1 = cacheMain_v1.1 ∧
    Cache.loads cacheMain_v1reset cacheMain_v5.2 = 0 ∧
    cacheMain_v5.1 = cacheMain_v1.1 ∧
    Cache.loads cacheMain_v2reset cacheMain_v4.2 = 1 ∧
    cacheMain_v4.1 ≠ cacheMain_v2.1 ∧
    cacheMain_v4.2.cout =
      [loadingLine "odd", loadingLine "even", loadingLine "even"] := by
  decide

/-- C2 as stated fails: after the client releases the handle of the first
`get("odd")` while keeping the one of the third call, the next `get("odd")`
performs no load and returns the old object, not a new one. -/
theorem cache_driver_no_reload_after_v1_reset :
    cacheMain_v1.1 = some 0 ∧
    useCount cacheMain_v1reset.heap 0 = 1 ∧
    Cache.loads cacheMain_v1reset cacheMain_v5.2 = 0 ∧
    cacheMain_v5.1 = cacheMain_v1.1 ∧
    ¬ (Cache.loads cacheMain_v1reset cacheMain_v5.2 = 1 ∧
       cacheMain_v5.1 ≠ cacheMain_v1.1) := by
  decide

/-! ### Heap lemmas for the publisher -/

theorem getElem?_lt_of_some {α : Type} {l : List α} {i : Nat} {a : α}
    (h : l[i]? = some a) : i < l.length := by
  rcases Nat.lt_or_ge i l.length with hl | hl
  · exact hl
  · rw [List.getElem?_eq_none hl] at h; cases h

theorem release_retain {α : Type} (h : Heap α) (o : Nat) :
    release (retain h o) o = h := by
  unfold retain
  cases hq : h[o]? with
  | none => simp [release, hq]
  | some b =>
    have hlt : o < h.length := getElem?_lt_of_some hq
    simp only [release, List.getElem?_set_self hlt, List.set_set]
    apply List.ext_getElem?
    intro n
    by_cases hn : o = n
    · subst hn
      rw [List.getElem?_set_self hlt, hq]
      cases b
      simp
    · rw [List.getElem?_set_ne hn]

theorem useCount_ne_zero_getElem? {α : Type} {h : Heap α} {o : Nat}
    (h0 : useCount h o ≠ 0) : ∃ b, h[o]? = some b ∧ b.strong ≠ 0 := by
  unfold useCount at h0
  cases hq : h[o]? with
  | none => simp [hq] at h0
  | some b => exact ⟨b, rfl, by simpa [hq] using h0⟩

theorem deref_retain {α : Type} (h : Heap α) (o : Nat) (b : Block α)
    (hq : h[o]? = some b) :
    SharedPtr.deref (some o) (retain h o) = .ok b.obj := by
  have hlt : o < h.length := getElem?_lt_of_some hq
  simp [SharedPtr.deref, retain, hq, List.getElem?_set_self hlt]

/-! ### The loop of `Publish` -/

theorem Publisher.publishLoop_ok (val : Int) (l : List (String × WeakPtr)) :
    ∀ p : Publisher, ∃ lines, Publisher.publishLoop val l p =
      .ok { p with cout := p.cout ++ lines,
                   received := p.received ++ Publisher.deliveries p.heap val l } := by
  induction l with
  | nil => intro p; exact ⟨[], by simp [Publisher.publishLoop, Publisher.deliveries]⟩
  | cons e rest ih =>
    intro p
    obtain ⟨key, w⟩ := e
    cases w with
    | none =>
      obtain ⟨lines, hl⟩ := ih { p with cout := p.cout ++ ["skipping destroyed subscriber " ++ key] }
      refine ⟨("skipping destroyed subscriber " ++ key) :: lines, ?_⟩
      simp [Publisher.publishLoop, WeakPtr.lock, Publisher.deliveries, hl]
    | some o =>
      by_cases h0 : useCount p.heap o = 0
      · obtain ⟨lines, hl⟩ := ih { p with cout := p.cout ++ ["skipping destroyed subscriber " ++ key] }
        refine ⟨("skipping destroyed subscriber " ++ key) :: lines, ?_⟩
        simp [Publisher.publishLoop, WeakPtr.lock, Publisher.deliveries, h0, hl]
      · obtain ⟨b, hq, -⟩ := useCount_ne_zero_getElem? h0
        obtain ⟨lines, hl⟩ := ih { p with cout := p.cout ++ [b.obj.receiveLine val],
                                          received := p.received ++ [(o, val)] }
        refine ⟨(b.obj.receiveLine val) :: lines, ?_⟩
        simp [Publisher.publishLoop, WeakPtr.lock, Publisher.deliveries, h0,
          deref_retain _ _ _ hq, SharedPtr.reset, release_retain, hl]

theorem Publisher.Publish_ok (p : Publisher) (val : Int) :
    ∃ lines, Publisher.Publish p val =
      .ok { p with cout := p.cout ++ lines,
                   received := p.received ++
                     Publisher.deliveries p.heap val p.subscribers_ } := by
  obtain ⟨lines, hl⟩ := Publisher.publishLoop_ok val p.subscribers_
    { p with cout := p.cout ++ ["publish " ++ toString val] }
  exact ⟨("publish " ++ toString val) :: lines, by simp [Publisher.Publish, hl]⟩

/-! ### Membership in the map -/

theorem UMap.mem_of_find {V : Type} (m : UMap V) (k : String) (v : V)
    (h : UMap.find m k = some v) : (k, v) ∈ m := by
  induction m with
  | nil => simp [UMap.find] at h
  | cons e m ih =>
    obtain ⟨k', v'⟩ := e
    by_cases hk : k' = k
    · subst hk
      simp [UMap.find] at h
      simp [h]
    · simp [UMap.find, hk] at h
      exact List.mem_cons_of_mem _ (ih h)

theorem UMap.find_of_mem {V : Type} (m : UMap V) (k : String) (v : V)
    (hnd : (m.map Prod.fst).Nodup) (h : (k, v) ∈ m) : UMap.find m k = some v := by
  induction m with
  | nil => simp at h
  | cons e m ih =>
    obtain ⟨k', v'⟩ := e
    simp only [List.map_cons, List.nodup_cons, List.mem_map, not_exists, not_and] at hnd
    rcases List.mem_cons.mp h with heq | hin
    · cases heq
      simp [UMap.find]
    · have hk : k' ≠ k := by
        intro hk
        subst hk
        exact hnd.1 (k', v) hin rfl
      simp [UMap.find, hk, ih hnd.2 hin]

theorem UMap.mem_assign {V : Type} (m : UMap V) (k k2 : String) (v w : V)
    (h : (k2, w) ∈ UMap.assign m k v) : (k2 = k ∧ w = v) ∨ (k2, w) ∈ m := by
  induction m with
  | nil =>
    simp [UMap.assign] at h
    exact Or.inl h
  | cons e m ih =>
    obtain ⟨k', v'⟩ := e
    by_cases hk : k' = k
    · subst hk
      simp only [UMap.assign, if_true, List.mem_cons, Prod.mk.injEq] at h
      rcases h with ⟨h1, h2⟩ | h
      · exact Or.inl ⟨h1, h2⟩
      · exact Or.inr (List.mem_cons_of_mem _ h)
    · simp only [UMap.assign, hk, if_false, List.mem_cons, Prod.mk.injEq] at h
      rcases h with ⟨h1, h2⟩ | h
      · exact Or.inr (by simp [h1, h2])
      · rcases ih h with h3 | h3
        · exact Or.inl h3
        · exact Or.inr (List.mem_cons_of_mem _ h3)

theorem UMap.keys_assign {V : Type} (m : UMap V) (k k2 : String) (v : V)
    (h : k2 ∈ (UMap.assign m k v).map Prod.fst) : k2 = k ∨ k2 ∈ m.map Prod.fst := by
  obtain ⟨⟨a, b⟩, hmem, rfl⟩ := List.mem_map.mp h
  rcases UMap.mem_assign m k a v b hmem with h1 | h1
  · exact Or.inl h1.1
  · exact Or.inr (List.mem_map.mpr ⟨(a, b), h1, rfl⟩)

theorem UMap.nodup_assign {V : Type} (m : UMap V) (k : String) (v : V)
    (hnd : (m.map Prod.fst).Nodup) : ((UMap.assign m k v).map Prod.fst).Nodup := by
  induction m with
  | nil => simp [UMap.assign]
  | cons e m ih =>
    obtain ⟨k', v'⟩ := e
    simp only [List.map_cons, List.nodup_cons] at hnd
    by_cases hk : k' = k
    · simp only [UMap.assign, hk, if_true, List.map_cons, List.nodup_cons]
      rw [← hk]
      exact hnd
    · simp only [UMap.assign, hk, if_false, List.map_cons, List.nodup_cons]
      refine ⟨?_, ih hnd.2⟩
      intro hmem
      rcases UMap.keys_assign m k k' v hmem with h1 | h1
      · exact hk h1
      · exact hnd.1 h1

/-! ### Counting the deliveries of one `Publish` -/

theorem Publisher.deliveries_mem (h : Heap Subscriber) (val : Int)
    (l : List (String × WeakPtr)) (o : Nat) (w : Int)
    (hin : (o, w) ∈ Publisher.deliveries h val l) :
    w = val ∧ (∃ k, (k, some o) ∈ l) ∧ useCount h o ≠ 0 := by
  induction l with
  | nil => simp [Publisher.deliveries] at hin
  | cons e rest ih =>
    obtain ⟨key, wk⟩ := e
    cases wk with
    | none =>
      simp only [Publisher.deliveries] at hin
      obtain ⟨h1, ⟨k, hk⟩, h3⟩ := ih hin
      exact ⟨h1, ⟨k, List.mem_cons_of_mem _ hk⟩, h3⟩
    | some o1 =>
      by_cases h0 : useCount h o1 = 0
      · simp only [Publisher.deliveries, h0, if_true] at hin
        obtain ⟨h1, ⟨k, hk⟩, h3⟩ := ih hin
        exact ⟨h1, ⟨k, List.mem_cons_of_mem _ hk⟩, h3⟩
      · simp only [Publisher.deliveries, h0, if_false, List.mem_cons, Prod.mk.injEq] at hin
        rcases hin with ⟨h1, h2⟩ | hin
        · subst h1
          exact ⟨h2, ⟨key, by simp⟩, h0⟩
        · obtain ⟨h1, ⟨k, hk⟩, h3⟩ := ih hin
          exact ⟨h1, ⟨k, List.mem_cons_of_mem _ hk⟩, h3⟩

theorem Publisher.deliveries_count (h : Heap Subscriber) (val : Int)
    (l : List (String × WeakPtr)) (o : Nat)
    (hnd : (l.map Prod.fst).Nodup)
    (hid : ∀ k w, (k, w) ∈ l → ∃ o b, w = some o ∧ h[o]? = some b ∧ b.obj.id_ = k)
    (hin : ∃ k, (k, some o) ∈ l) (h0 : useCount h o ≠ 0) :
    (Publisher.deliveries h val l).count (o, val) = 1 := by
  induction l with
  | nil => simp at hin
  | cons e rest ih =>
    obtain ⟨key, wk⟩ := e
    simp only [List.map_cons, List.nodup_cons] at hnd
    have hid' : ∀ k w, (k, w) ∈ rest →
        ∃ o b, w = some o ∧ h[o]? = some b ∧ b.obj.id_ = k :=
      fun k w hk => hid k w (List.mem_cons_of_mem _ hk)
    obtain ⟨o1, b1, hw, hb1, hkey⟩ := hid key wk (by simp)
    subst hw
    by_cases ho : o1 = o
    · subst ho
      have hrest : (o1, val) ∉ Publisher.deliveries h val rest := by
        intro hmem
        obtain ⟨-, ⟨k, hk⟩, -⟩ := Publisher.deliveries_mem h val rest o1 val hmem
        obtain ⟨o2, b2, hw2, hb2, hkey2⟩ := hid' k (some o1) hk
        cases hw2
        rw [hb1] at hb2
        cases hb2
        apply hnd.1
        rw [← hkey, hkey2]
        exact List.mem_map.mpr ⟨(k, some o1), hk, rfl⟩
      simp [Publisher.deliveries, h0, List.count_cons, List.count_eq_zero.mpr hrest]
    · obtain ⟨k, hk⟩ := hin
      have hk' : (k, some o) ∈ rest := by
        rcases List.mem_cons.mp hk with heq | hk'
        · cases heq
          exact absurd rfl ho
        · exact hk'
      have := ih hnd.2 hid' ⟨k, hk'⟩
      by_cases h1 : useCount h o1 = 0
      · simp [Publisher.deliveries, h1, this]
      · simp [Publisher.deliveries, h1, List.count_cons, this, ho]

/-! ### The registry invariant -/

theorem release_getElem? {α : Type} (h : Heap α) (o i : Nat) (b : Block α)
    (hq : h[i]? = some b) : ∃ b2, (release h o)[i]? = some b2 ∧ b2.obj = b.obj := by
  unfold release
  cases ho : h[o]? with
  | none => exact ⟨b, hq, rfl⟩
  | some c =>
    by_cases hoi : o = i
    · subst hoi
      rw [hq] at ho
      cases ho
      exact ⟨_, List.getElem?_set_self (getElem?_lt_of_some hq), rfl⟩
    · exact ⟨b, by simp [List.getElem?_set_ne hoi, hq], rfl⟩

theorem Publisher.WF_fresh : Publisher.WF Publisher.fresh := by
  simp [Publisher.WF, Publisher.fresh]

theorem Publisher.WF_create (p : Publisher) (id : String) (hwf : Publisher.WF p) :
    Publisher.WF (Subscriber.createSubscriber p id).2 := by
  refine ⟨hwf.1, ?_⟩
  intro k w hk
  obtain ⟨o, b, hw, hb, hid⟩ := hwf.2 k w hk
  refine ⟨o, b, hw, ?_, hid⟩
  simp only [Subscriber.createSubscriber, makeShared]
  rw [List.getElem?_append_left (getElem?_lt_of_some hb)]
  exact hb

theorem retain_getElem? {α : Type} (h : Heap α) (o i : Nat) (b : Block α)
    (hq : h[i]? = some b) : ∃ b2, (retain h o)[i]? = some b2 ∧ b2.obj = b.obj := by
  unfold retain
  cases ho : h[o]? with
  | none => exact ⟨b, hq, rfl⟩
  | some c =>
    by_cases hoi : o = i
    · subst hoi
      rw [hq] at ho
      cases ho
      exact ⟨_, List.getElem?_set_self (getElem?_lt_of_some hq), rfl⟩
    · exact ⟨b, by simp [List.getElem?_set_ne hoi, hq], rfl⟩

theorem Publisher.WF_copy (p : Publisher) (sp : SharedPtr) (hwf : Publisher.WF p) :
    Publisher.WF (Publisher.clientCopy p sp) := by
  refine ⟨hwf.1, ?_⟩
  intro k w hk
  obtain ⟨o, b, hw, hb, hid⟩ := hwf.2 k w hk
  cases sp with
  | none => exact ⟨o, b, hw, hb, hid⟩
  | some o2 =>
    obtain ⟨b2, hb2, hobj⟩ := retain_getElem? p.heap o2 o b hb
    exact ⟨o, b2, hw, hb2, by rw [hobj]; exact hid⟩

theorem Publisher.WF_reset (p : Publisher) (sp : SharedPtr) (hwf : Publisher.WF p) :
    Publisher.WF (Publisher.clientReset p sp) := by
  refine ⟨hwf.1, ?_⟩
  intro k w hk
  obtain ⟨o, b, hw, hb, hid⟩ := hwf.2 k w hk
  cases sp with
  | none => exact ⟨o, b, hw, hb, hid⟩
  | some o2 =>
    obtain ⟨b2, hb2, hobj⟩ := release_getElem? p.heap o2 o b hb
    exact ⟨o, b2, hw, hb2, by rw [hobj]; exact hid⟩

theorem Publisher.WF_register (p q : Publisher) (sp : SharedPtr)
    (hwf : Publisher.WF p) (hr : Publisher.Register p sp = .ok q) : Publisher.WF q := by
  cases sp with
  | none =>
    simp only [Publisher.Register, Except.ok.injEq] at hr
    subst hr
    exact hwf
  | some o =>
    simp only [Publisher.Register, SharedPtr.deref] at hr
    cases hq : p.heap[o]? with
    | none => simp [hq] at hr
    | some b =>
      by_cases hs : b.strong = 0
      · simp [hq, hs] at hr
      · simp only [hq, hs, if_false, Except.ok.injEq] at hr
        subst hr
        refine ⟨UMap.nodup_assign _ _ _ hwf.1, ?_⟩
        intro k w hk
        rcases UMap.mem_assign _ _ _ _ _ hk with ⟨h1, h2⟩ | h1
        · exact ⟨o, b, h2, hq, by rw [h1]; rfl⟩
        · exact hwf.2 k w h1

theorem Publisher.WF_publish (p q : Publisher) (val : Int)
    (hwf : Publisher.WF p) (hr : Publisher.Publish p val = .ok q) : Publisher.WF q := by
  obtain ⟨lines, hl⟩ := Publisher.Publish_ok p val
  rw [hl] at hr
  cases hr
  exact hwf

theorem Publisher.registry_of_reachable (p : Publisher) (hr : Publisher.Reachable p) :
    Publisher.WF p := by
  induction hr with
  | fresh => exact Publisher.WF_fresh
  | create p id _ ih => exact Publisher.WF_create p id ih
  | copy p sp _ ih => exact Publisher.WF_copy p sp ih
  | reset p sp _ ih => exact Publisher.WF_reset p sp ih
  | register p q sp _ hq ih => exact Publisher.WF_register p q sp ih hq
  | publish p q val _ hq ih => exact Publisher.WF_publish p q val ih hq

/-! ### C3, C6 -/

/-- C3: `Register` of a live subscriber stores a weak handle to it under its
id, replacing the handle registered there before and touching no other key.
For every registry state the program can reach and every value `v`,
`Publisher::Publish(v)` completes without failure, calls `Receive(v)` exactly
once on each subscriber object that has a live registry entry, and calls
`Receive` on no other object (none whose entry is expired). In the driver,
where `sub1` is object 0, `sub2` object 1 and the second `sub1` object 2,
`Publish(123)` reaches both subscribers once; after `sub1.reset()`,
`Publish(456)` reaches `sub2` only; after a new `sub1` is created and
registered, `Publish(789)` reaches the new `sub1` and `sub2` once each and not
the destroyed one. -/
theorem publish_reaches_exactly_live :
    (∀ (p : Publisher) (o : Nat), useCount p.heap o ≠ 0 →
      ∃ q s, SharedPtr.deref (some o) p.heap = .ok s ∧
        Publisher.Register p (some o) = .ok q ∧
        UMap.find q.subscribers_ s.GetId = some (some o) ∧
        (∀ k, k ≠ s.GetId → UMap.find q.subscribers_ k = UMap.find p.subscribers_ k) ∧
        q.heap = p.heap) ∧
    (∀ (p : Publisher) (v : Int), Publisher.Reachable p →
      ∃ q calls, Publisher.Publish p v = .ok q ∧
        q.received = p.received ++ calls ∧
        (∀ o, Publisher.liveEntry p o → calls.count (o, v) = 1) ∧
        (∀ o w, ¬ Publisher.liveEntry p o → (o, w) ∉ calls) ∧
        (∀ o w, (o, w) ∈ calls → w = v)) ∧
    pubsubMain_123.toOption.map (fun r => (r.1, r.2.1,
        r.2.2.received.count (0, 123), r.2.2.received.count (1, 123),
        r.2.2.received.length)) = some (some 0, some 1, 1, 1, 2) ∧
    pubsubMain_456.toOption.map (fun r => (r.1,
        r.2.received.count (0, 456), r.2.received.count (1, 456),
        r.2.received.length)) = some (some 1, 0, 1, 3) ∧
    pubsubMain_789.toOption.map (fun r => (r.1, r.2.1,
        r.2.2.received.count (0, 789), r.2.2.received.count (1, 789),
        r.2.2.received.count (2, 789), r.2.2.received.length)) =
      some (some 2, some 1, 0, 1, 1, 5) := by
  refine ⟨?_, ?_, by decide, by decide, by decide⟩
  · intro p o h0
    obtain ⟨b, hb, hs⟩ := useCount_ne_zero_getElem? h0
    have hd : SharedPtr.deref (some o) p.heap = .ok b.obj := by
      simp [SharedPtr.deref, hb, hs]
    refine ⟨{ p with subscribers_ := UMap.assign p.subscribers_ b.obj.GetId (some o) },
      b.obj, hd, by simp [Publisher.Register, hd], UMap.find_assign_self _ _ _,
      fun k hk => UMap.find_assign_ne _ _ _ _ (Ne.symm hk), rfl⟩
  intro p v hreach
  have hwf := Publisher.registry_of_reachable p hreach
  obtain ⟨lines, hl⟩ := Publisher.Publish_ok p v
  refine ⟨_, Publisher.deliveries p.heap v p.subscribers_, hl, rfl, ?_, ?_, ?_⟩
  · rintro o ⟨⟨k, hk⟩, h0⟩
    exact Publisher.deliveries_count p.heap v p.subscribers_ o hwf.1 hwf.2
      ⟨k, UMap.mem_of_find _ _ _ hk⟩ h0
  · intro o w hdead hmem
    obtain ⟨-, ⟨k, hk⟩, h0⟩ := Publisher.deliveries_mem p.heap v p.subscribers_ o w hmem
    exact hdead ⟨⟨k, UMap.find_of_mem _ _ _ hwf.1 hk⟩, h0⟩
  · intro o w hmem
    exact (Publisher.deliveries_mem p.heap v p.subscribers_ o w hmem).1

/-- C3, in the state the driver is in before `Publish(456)`: `sub1` is
destroyed, `sub2` has a live entry and is called exactly once. -/
theorem publish_reaches_exactly_live_witness :
    ∃ p, Publisher.Reachable p ∧ Publisher.liveEntry p 1 ∧ ¬ Publisher.liveEntry p 0 ∧
      ∃ q calls, Publisher.Publish p 456 = .ok q ∧
        q.received = p.received ++ calls ∧ calls.count (1, 456) = 1 ∧
        (0, 456) ∉ calls := by
  let p1 := (Subscriber.createSubscriber Publisher.fresh "sub1").2
  let p2 := (Subscriber.createSubscriber p1 "sub2").2
  let p3 : Publisher := { p2 with subscribers_ := [("sub1", some 0)] }
  let p4 : Publisher := { p2 with subscribers_ := [("sub1", some 0), ("sub2", some 1)] }
  let p5 := Publisher.clientReset p4 (some 0)
  have r2 : Publisher.Reachable p2 :=
    Publisher.Reachable.create _ _ (Publisher.Reachable.create _ _ Publisher.Reachable.fresh)
  have r3 : Publisher.Reachable p3 := Publisher.Reachable.register p2 p3 (some 0) r2 rfl
  have r4 : Publisher.Reachable p4 := Publisher.Reachable.register p3 p4 (some 1) r3 rfl
  have r5 : Publisher.Reachable p5 := Publisher.Reachable.reset p4 (some 0) r4
  have hlive : Publisher.liveEntry p5 1 := ⟨⟨"sub2", by decide⟩, by decide⟩
  have hdead : ¬ Publisher.liveEntry p5 0 := fun h => h.2 (by decide)
  obtain ⟨q, calls, hq, hrec, hone, hnone, -⟩ :=
    publish_reaches_exactly_live.2.1 p5 456 r5
  exact ⟨p5, r5, hlive, hdead, q, calls, hq, hrec, hone 1 hlive, hnone 0 456 hdead⟩

/-- C6: `Publisher::Publish` never changes the registry. For every state,
`Publish(v)` returns a state whose map `subscribers_` is the one it started
from, expired entries included, and whose heap is unchanged as well, so every
entry is as alive or as expired as before. -/
theorem publish_keeps_registry (p : Publisher) (v : Int) :
    ∃ q, Publisher.Publish p v = .ok q ∧ q.subscribers_ = p.subscribers_ ∧
      q.heap = p.heap ∧
      ∀ k, (UMap.find q.subscribers_ k).map (fun w => WeakPtr.expired w q.heap) =
        (UMap.find p.subscribers_ k).map (fun w => WeakPtr.expired w p.heap) := by
  obtain ⟨lines, hl⟩ := Publisher.Publish_ok p v
  exact ⟨_, hl, rfl, rfl, fun _ => rfl⟩

/-! ### Item 18: construction -/

theorem retain_getElem?_self {α : Type} (h : Heap α) (c : Nat) (b : Block α)
    (hq : h[c]? = some b) :
    (retain h c)[c]? = some { b with strong := b.strong + 1 } := by
  simp [retain, hq, List.getElem?_set_self (getElem?_lt_of_some hq)]

theorem release_getElem?_self {α : Type} (h : Heap α) (c : Nat) (b : Block α)
    (hq : h[c]? = some b) :
    (release h c)[c]? = some { b with strong := b.strong - 1 } := by
  simp [release, hq, List.getElem?_set_self (getElem?_lt_of_some hq)]

theorem makeInvestment_stock (w : Inv) (arg : String) :
    makeInvestment w InvestmentType.Stock arg =
      .ok ({ ptr := some w.objects.length, deleter := .deleteFnType },
        { w with objects := w.objects ++ [{ kind := .Stock, arg := arg, alive := true }],
                 cout := w.cout ++ ["construct stock: " ++ arg] }) := by
  simp [makeInvestment, Inv.new, UniquePtr.reset, UniquePtr.move, UniquePtr.destroy,
    InvKind.ctorLine]

theorem makeInvestment_bond (w : Inv) (arg : String) :
    makeInvestment w InvestmentType.Bond arg =
      .ok ({ ptr := some w.objects.length, deleter := .deleteFnType },
        { w with objects := w.objects ++ [{ kind := .Bond, arg := arg, alive := true }],
                 cout := w.cout ++ ["calling bond: " ++ arg] }) := by
  simp [makeInvestment, Inv.new, UniquePtr.reset, UniquePtr.move, UniquePtr.destroy,
    InvKind.ctorLine, InvestmentType.Bond, InvestmentType.Stock]

theorem makeInvestment_other (w : Inv) (type : InvestmentType) (arg : String)
    (hs : type ≠ InvestmentType.Stock) (hb : type ≠ InvestmentType.Bond) :
    makeInvestment w type arg = .ok ({ ptr := none, deleter := .deleteFnType }, w) := by
  simp [makeInvestment, hs, hb, UniquePtr.move, UniquePtr.destroy]

/-- C5: `makeInvestment(type, arg)` returns a non-empty handle to a newly
constructed `Stock` when `type` is `InvestmentType::Stock` and to a newly
constructed `Bond` when it is `InvestmentType::Bond`, the handle carrying the
deleter `deleteFn` in both cases; for every other value of `type` it
constructs no object, leaves the program state as it was, and returns an empty
handle. -/
theorem makeInvestment_by_type (w : Inv) (type : InvestmentType) (arg : String) :
    ∃ h w1, makeInvestment w type arg = .ok (h, w1) ∧ h.deleter = .deleteFnType ∧
      (type = InvestmentType.Stock →
        h.ptr = some w.objects.length ∧ w.objects[w.objects.length]? = none ∧
        w1.objects = w.objects ++ [{ kind := .Stock, arg := arg, alive := true }]) ∧
      (type = InvestmentType.Bond →
        h.ptr = some w.objects.length ∧ w.objects[w.objects.length]? = none ∧
        w1.objects = w.objects ++ [{ kind := .Bond, arg := arg, alive := true }]) ∧
      (type ≠ InvestmentType.Stock → type ≠ InvestmentType.Bond →
        h.ptr = none ∧ w1 = w) := by
  by_cases hs : type = InvestmentType.Stock
  · subst hs
    exact ⟨_, _, makeInvestment_stock w arg, rfl, fun _ => ⟨rfl, by simp, rfl⟩,
      fun h => absurd h (by decide), fun h => absurd rfl h⟩
  · by_cases hb : type = InvestmentType.Bond
    · subst hb
      exact ⟨_, _, makeInvestment_bond w arg, rfl, fun h => absurd h hs,
        fun _ => ⟨rfl, by simp, rfl⟩, fun _ h => absurd rfl h⟩
    · exact ⟨_, _, makeInvestment_other w type arg hs hb, rfl, fun h => absurd h hs,
        fun h => absurd h hb, fun _ _ => ⟨rfl, rfl⟩⟩

/-- C5, at the start of `main`: discriminant 7 gives an empty handle and no
object, `Stock` gives a handle to object 0. -/
theorem makeInvestment_by_type_witness :
    (∃ h, makeInvestment Inv.init 7 "x" = .ok (h, Inv.init) ∧ h.ptr = none) ∧
    (∃ h w1, makeInvestment Inv.init InvestmentType.Stock "GOOG" = .ok (h, w1) ∧
      h.ptr = some 0) := by
  obtain ⟨h, w1, hm, -, -, -, hother⟩ := makeInvestment_by_type Inv.init 7 "x"
  obtain ⟨hp, hw⟩ := hother (by decide) (by decide)
  obtain ⟨h2, w2, hm2, -, hstock, -, -⟩ :=
    makeInvestment_by_type Inv.init InvestmentType.Stock "GOOG"
  exact ⟨⟨h, by rw [hm, hw], hp⟩, ⟨h2, w2, hm2, (hstock rfl).1⟩⟩

/-! ### Item 18: the deleter runs once -/

theorem deleteFn_alive (w : Inv) (p : Nat) (ob : InvObj)
    (hob : w.objects[p]? = some ob) (halive : ob.alive = true) :
    deleteFn w (some p) =
      .ok { w with objects := w.objects.set p { ob with alive := false },
                   cout := w.cout ++ ["calling custom deleteFn", ob.kind.dtorLine],
                   deleteFnCalls := w.deleteFnCalls ++ [some p] } := by
  simp [deleteFn, Inv.delete, hob, halive]

theorem Inv.sharedCopies_block (c : Nat) (k : Nat) :
    ∀ (w : Inv) (b : Block (Nat × Deleter)), w.ctrl[c]? = some b →
      (Inv.sharedCopies w (some c) k).ctrl[c]? =
          some { b with strong := b.strong + k } ∧
        (Inv.sharedCopies w (some c) k).objects = w.objects ∧
        (Inv.sharedCopies w (some c) k).deleteFnCalls = w.deleteFnCalls := by
  induction k with
  | zero => intro w b hb; exact ⟨by simpa [Inv.sharedCopies] using hb, rfl, rfl⟩
  | succ k ih =>
    intro w b hb
    have h1 := retain_getElem?_self w.ctrl c b hb
    obtain ⟨h2, h3, h4⟩ := ih (Inv.sharedCopy w (some c)).2 _ h1
    refine ⟨?_, ?_, ?_⟩
    · simp only [Inv.sharedCopies]
      rw [h2]
      simp [Nat.add_assoc, Nat.add_comm 1 k]
    · simp only [Inv.sharedCopies]
      rw [h3]
      rfl
    · simp only [Inv.sharedCopies]
      rw [h4]
      rfl

theorem Inv.sharedReleases_below (c : Nat) (n : Nat) :
    ∀ (w : Inv) (b : Block (Nat × Deleter)), w.ctrl[c]? = some b → n < b.strong →
      ∃ w1, Inv.sharedReleases w (some c) n = .ok w1 ∧
        w1.ctrl[c]? = some { b with strong := b.strong - n } ∧
        w1.objects = w.objects ∧ w1.deleteFnCalls = w.deleteFnCalls := by
  induction n with
  | zero => intro w b hb _; exact ⟨w, rfl, by simpa using hb, rfl, rfl⟩
  | succ n ih =>
    intro w b hb hlt
    have h0 : b.strong ≠ 0 := by omega
    have h1 : b.strong ≠ 1 := by omega
    have hrel := release_getElem?_self w.ctrl c b hb
    obtain ⟨w1, hw1, hc1, ho1, hd1⟩ :=
      ih { w with ctrl := release w.ctrl c } _ hrel (by simp; omega)
    refine ⟨w1, ?_, ?_, ho1, hd1⟩
    · simp [Inv.sharedReleases, Inv.sharedRelease, hb, h0, h1, hw1]
    · rw [hc1]
      simp
      omega

theorem Inv.sharedReleases_all (c p : Nat) (ob : InvObj) (n : Nat) :
    ∀ (w : Inv) (b : Block (Nat × Deleter)), w.ctrl[c]? = some b →
      b.strong = n + 1 → b.obj = (p, Deleter.deleteFnType) →
      w.objects[p]? = some ob → ob.alive = true →
      ∃ w1, Inv.sharedReleases w (some c) (n + 1) = .ok w1 ∧
        w1.deleteFnCalls = w.deleteFnCalls ++ [some p] ∧
        w1.objects[p]? = some { ob with alive := false } := by
  induction n with
  | zero =>
    intro w b hb hs hobj hob halive
    have hdel := deleteFn_alive { w with ctrl := release w.ctrl c } p ob hob halive
    have hrel : Inv.sharedRelease w (some c) =
        deleteFn { w with ctrl := release w.ctrl c } (some p) := by
      simp [Inv.sharedRelease, hb, hs, hobj, Deleter.call]
    refine ⟨{ w with objects := w.objects.set p { ob with alive := false },
                     ctrl := release w.ctrl c,
                     cout := w.cout ++ ["calling custom deleteFn", ob.kind.dtorLine],
                     deleteFnCalls := w.deleteFnCalls ++ [some p] }, ?_, rfl, ?_⟩
    · rw [Inv.sharedReleases, hrel, hdel]
      rfl
    · simp [List.getElem?_set_self (getElem?_lt_of_some hob)]
  | succ n ih =>
    intro w b hb hs hobj hob halive
    have h0 : b.strong ≠ 0 := by omega
    have h1 : b.strong ≠ 1 := by omega
    have hrel := release_getElem?_self w.ctrl c b hb
    obtain ⟨w1, hw1, hd1, ho1⟩ :=
      ih { w with ctrl := release w.ctrl c } _ hrel (by simp; omega) hobj hob halive
    refine ⟨w1, ?_, hd1, ho1⟩
    rw [Inv.sharedReleases]
    simp only [Inv.sharedRelease, hb, h0, h1, if_false]
    exact hw1

theorem UniquePtr.life_of_owned (w1 : Inv) (p : Nat) (ob : InvObj) (k : Nat)
    (hob : w1.objects[p]? = some ob) (halive : ob.alive = true) :
    (∃ w2, UniquePtr.destroy { ptr := some p, deleter := .deleteFnType } w1 = .ok w2 ∧
      w2.deleteFnCalls = w1.deleteFnCalls ++ [some p]) ∧
    (∃ h2 w2 w3,
      UniquePtr.reset { ptr := some p, deleter := .deleteFnType } none w1 = .ok (h2, w2) ∧
      w2.deleteFnCalls = w1.deleteFnCalls ++ [some p] ∧
      UniquePtr.destroy h2 w2 = .ok w3 ∧ w3.deleteFnCalls = w2.deleteFnCalls) ∧
    (∀ n, n ≤ k → ∃ w4,
      Inv.sharedReleases
        (Inv.sharedCopies
          (UniquePtr.toShared { ptr := some p, deleter := .deleteFnType } w1).2
          (UniquePtr.toShared { ptr := some p, deleter := .deleteFnType } w1).1 k)
        (UniquePtr.toShared { ptr := some p, deleter := .deleteFnType } w1).1 n = .ok w4 ∧
      w4.deleteFnCalls = w1.deleteFnCalls) ∧
    (∃ w5,
      Inv.sharedReleases
        (Inv.sharedCopies
          (UniquePtr.toShared { ptr := some p, deleter := .deleteFnType } w1).2
          (UniquePtr.toShared { ptr := some p, deleter := .deleteFnType } w1).1 k)
        (UniquePtr.toShared { ptr := some p, deleter := .deleteFnType } w1).1 (k + 1) =
          .ok w5 ∧
      w5.deleteFnCalls = w1.deleteFnCalls ++ [some p]) := by
  have hdel := deleteFn_alive w1 p ob hob halive
  have hblock : (UniquePtr.toShared { ptr := some p, deleter := .deleteFnType } w1).2.ctrl[
      w1.ctrl.length]? = some { strong := 1, obj := (p, Deleter.deleteFnType) } := by
    simp [UniquePtr.toShared]
  obtain ⟨hc1, hc2, hc3⟩ := Inv.sharedCopies_block w1.ctrl.length k _ _ hblock
  refine ⟨⟨_, by simpa [UniquePtr.destroy, Deleter.call] using hdel, rfl⟩, ?_, ?_, ?_⟩
  · refine ⟨{ ptr := none, deleter := .deleteFnType },
      { w1 with objects := w1.objects.set p { ob with alive := false },
                cout := w1.cout ++ ["calling custom deleteFn", ob.kind.dtorLine],
                deleteFnCalls := w1.deleteFnCalls ++ [some p] }, _, ?_, rfl, rfl, rfl⟩
    simp [UniquePtr.reset, Deleter.call, hdel]
  · intro n hn
    obtain ⟨w4, hw4, -, -, hd4⟩ :=
      Inv.sharedReleases_below w1.ctrl.length n _ _ hc1 (by simp; omega)
    exact ⟨w4, hw4, by rw [hd4, hc3]; rfl⟩
  · obtain ⟨w5, hw5, hd5, -⟩ :=
      Inv.sharedReleases_all w1.ctrl.length p ob k _ _ hc1 (by simp; omega) rfl
        (by rw [hc2]; exact hob) halive
    exact ⟨w5, hw5, by rw [hd5, hc3]; rfl⟩

/-- C4: `deleteFn` is invoked exactly once per object `makeInvestment`
produces. Building the object invokes it zero times; from then on the
invocations recorded grow by exactly one, on that object, when the handle goes
out of scope; by exactly one when the handle is reset, and by none when it
then goes out of scope; and, when the handle is converted to a `shared_ptr`
that is copied `k` times, by none while at most `k` of the `k + 1` handles are
released and by exactly one once all are released. For any other discriminant
the empty handle the factory builds and returns never invokes `deleteFn`. In
`main`, `deleteFn` runs once on the bond and once on the stock. -/
theorem deleteFn_invoked_exactly_once :
    (∀ (w : Inv) (type : InvestmentType) (arg : String) (k : Nat),
      ∃ h w1, makeInvestment w type arg = .ok (h, w1) ∧
        w1.deleteFnCalls = w.deleteFnCalls ∧
        ((type = InvestmentType.Stock ∨ type = InvestmentType.Bond) →
          h.ptr = some w.objects.length ∧
          (∃ w2, UniquePtr.destroy h w1 = .ok w2 ∧
            w2.deleteFnCalls = w.deleteFnCalls ++ [h.ptr]) ∧
          (∃ h2 w2 w3, UniquePtr.reset h none w1 = .ok (h2, w2) ∧
            w2.deleteFnCalls = w.deleteFnCalls ++ [h.ptr] ∧
            UniquePtr.destroy h2 w2 = .ok w3 ∧ w3.deleteFnCalls = w2.deleteFnCalls) ∧
          (∀ n, n ≤ k → ∃ w4,
            Inv.sharedReleases
              (Inv.sharedCopies (UniquePtr.toShared h w1).2 (UniquePtr.toShared h w1).1 k)
              (UniquePtr.toShared h w1).1 n = .ok w4 ∧
            w4.deleteFnCalls = w.deleteFnCalls) ∧
          (∃ w5,
            Inv.sharedReleases
              (Inv.sharedCopies (UniquePtr.toShared h w1).2 (UniquePtr.toShared h w1).1 k)
              (UniquePtr.toShared h w1).1 (k + 1) = .ok w5 ∧
            w5.deleteFnCalls = w.deleteFnCalls ++ [h.ptr])) ∧
        (type ≠ InvestmentType.Stock → type ≠ InvestmentType.Bond →
          h.ptr = none ∧ UniquePtr.destroy h w1 = .ok w ∧
          UniquePtr.reset h none w1 = .ok (h, w) ∧
          UniquePtr.toShared h w1 = (none, w))) ∧
    investMain.toOption.map (fun w => w.deleteFnCalls) = some [some 1, some 0] := by
  refine ⟨?_, by decide⟩
  intro w type arg k
  by_cases hs : type = InvestmentType.Stock
  · subst hs
    refine ⟨_, _, makeInvestment_stock w arg, rfl, fun _ => ⟨rfl, ?_⟩,
      fun h => absurd rfl h⟩
    exact UniquePtr.life_of_owned _ w.objects.length
      { kind := .Stock, arg := arg, alive := true } k (by simp) rfl
  · by_cases hb : type = InvestmentType.Bond
    · subst hb
      refine ⟨_, _, makeInvestment_bond w arg, rfl, fun _ => ⟨rfl, ?_⟩,
        fun _ h => absurd rfl h⟩
      exact UniquePtr.life_of_owned _ w.objects.length
        { kind := .Bond, arg := arg, alive := true } k (by simp) rfl
    · refine ⟨_, _, makeInvestment_other w type arg hs hb, rfl, ?_, fun _ _ => ?_⟩
      · rintro (h | h)
        · exact absurd h hs
        · exact absurd h hb
      · exact ⟨rfl, rfl, rfl, rfl⟩

/-- C4, at the start of `main` with two copies of the shared handle: the three
handles to the bond are released and `deleteFn` has run once, on object 0. -/
theorem deleteFn_invoked_exactly_once_witness :
    ∃ h w1, makeInvestment Inv.init InvestmentType.Bond "B" = .ok (h, w1) ∧
      h.ptr = some 0 ∧
      ∃ w5, Inv.sharedReleases
          (Inv.sharedCopies (UniquePtr.toShared h w1).2 (UniquePtr.toShared h w1).1 2)
          (UniquePtr.toShared h w1).1 3 = .ok w5 ∧
        w5.deleteFnCalls = [some 0] := by
  obtain ⟨h, w1, hm, -, hown, -⟩ :=
    deleteFn_invoked_exactly_once.1 Inv.init InvestmentType.Bond "B" 2
  obtain ⟨hp, -, -, -, w5, hw5, hd5⟩ := hown (Or.inr rfl)
  exact ⟨h, w1, hm, hp, w5, hw5, by rw [hd5, hp]; rfl⟩

/-! ### Item 19 -/

theorem useCount_retain_ne {α : Type} (h : Heap α) (o i : Nat) (hne : o ≠ i) :
    useCount (retain h o) i = useCount h i := by
  unfold useCount retain
  cases hq : h[o]? with
  | none => rfl
  | some b => simp [List.getElem?_set_ne hne]

theorem WidgetWorld.callProcess_live (s : WidgetWorld) (o : Nat)
    (h0 : useCount s.heap o ≠ 0) :
    ∃ line, WidgetWorld.callProcess s (some o) =
      .ok { heap := retain s.heap o, widgets := s.widgets ++ [some o],
            cout := s.cout ++ [line] } := by
  obtain ⟨b, hb, hs⟩ := useCount_ne_zero_getElem? h0
  exact ⟨"Calling process(). id=" ++ b.obj.id_, by
    simp [WidgetWorld.callProcess, SharedPtr.deref, Widget.process,
      Widget.shared_from_this, hb, hs, h0]⟩

theorem WidgetWorld.callProcessAll_live (calls : List Nat) :
    ∀ s : WidgetWorld, (∀ o ∈ calls, useCount s.heap o ≠ 0) →
      ∃ s1, WidgetWorld.callProcessAll s (calls.map some) = .ok s1 ∧
        s1.widgets = s.widgets ++ calls.map some ∧
        ∀ o, useCount s1.heap o = useCount s.heap o + calls.count o := by
  induction calls with
  | nil => intro s _; exact ⟨s, rfl, by simp, by simp⟩
  | cons c rest ih =>
    intro s hlive
    have hc : useCount s.heap c ≠ 0 := hlive c (by simp)
    obtain ⟨line, hp⟩ := WidgetWorld.callProcess_live s c hc
    have hlive1 : ∀ o ∈ rest, useCount (retain s.heap c) o ≠ 0 := by
      intro o ho
      by_cases hco : c = o
      · subst hco
        rw [useCount_retain_self _ _ hc]
        omega
      · rw [useCount_retain_ne _ _ _ hco]
        exact hlive o (by simp [ho])
    obtain ⟨s1, hs1, hw1, hu1⟩ :=
      ih { heap := retain s.heap c, widgets := s.widgets ++ [some c],
           cout := s.cout ++ [line] } hlive1
    refine ⟨s1, ?_, ?_, ?_⟩
    · simp [WidgetWorld.callProcessAll, hp, hs1]
    · rw [hw1]
      simp
    · intro o
      rw [hu1 o]
      by_cases hco : c = o
      · subst hco
        simp [useCount_retain_self _ _ hc]
        omega
      · simp [useCount_retain_ne _ _ _ hco, List.count_cons, hco]

/-- C9: `Widget::create` returns a handle to a new widget whose live count is
1. For every widget that is under shared ownership (its live count is not
zero, as for every widget made by `Widget::create` and still held), a call
of `process()` through a handle succeeds, appends exactly one shared handle to
that same widget at the end of `widgets`, changes nothing else in it, and
raises the live count of that widget by one and of no other; the widget is
still alive, with the same `GetId()`, after the caller resets its own handle.
After `k` such calls from an empty `widgets` its size is `k`, its elements are
the handles processed in order, and each live count has grown by the number of
calls made on that widget. In `main` the size goes 0, 1, 2, 3 and
`w1->GetId()` is `"w1"` after `w3.reset()`. -/
theorem process_appends_self :
    (∀ (s : WidgetWorld) (id : String),
      (Widget.create s id).1 = some s.heap.length ∧
      useCount (Widget.create s id).2.heap s.heap.length = 1 ∧
      WidgetWorld.callGetId (Widget.create s id).2 (Widget.create s id).1 = .ok id) ∧
    (∀ (s : WidgetWorld) (o : Nat), useCount s.heap o ≠ 0 →
      ∃ s1, WidgetWorld.callProcess s (some o) = .ok s1 ∧
        s1.widgets = s.widgets ++ [some o] ∧
        useCount s1.heap o = useCount s.heap o + 1 ∧
        (∀ i, i ≠ o → useCount s1.heap i = useCount s.heap i) ∧
        useCount (WidgetWorld.clientReset s1 (some o)).heap o ≠ 0 ∧
        WidgetWorld.callGetId (WidgetWorld.clientReset s1 (some o)) (some o) =
          WidgetWorld.callGetId s (some o)) ∧
    (∀ (s : WidgetWorld) (calls : List Nat), s.widgets = [] →
      (∀ o ∈ calls, useCount s.heap o ≠ 0) →
      ∃ s1, WidgetWorld.callProcessAll s (calls.map some) = .ok s1 ∧
        s1.widgets.length = calls.length ∧ s1.widgets = calls.map some ∧
        ∀ o, useCount s1.heap o = useCount s.heap o + calls.count o) ∧
    widgetMain.toOption = some ([0, 1, 2, 3], "w1") := by
  refine ⟨?_, ?_, ?_, by decide⟩
  · intro s id
    refine ⟨rfl, ?_, ?_⟩
    · simp [Widget.create, makeShared, useCount]
    · simp [Widget.create, makeShared, WidgetWorld.callGetId, SharedPtr.deref,
        Widget.GetId]
  · intro s o h0
    obtain ⟨line, hp⟩ := WidgetWorld.callProcess_live s o h0
    refine ⟨_, hp, rfl, useCount_retain_self _ _ h0,
      fun i hi => useCount_retain_ne _ _ _ (Ne.symm hi), ?_, ?_⟩
    · simpa [WidgetWorld.clientReset, SharedPtr.reset, release_retain] using h0
    · simp [WidgetWorld.clientReset, SharedPtr.reset, release_retain,
        WidgetWorld.callGetId]
  · intro s calls hempty hlive
    obtain ⟨s1, hs1, hw1, hu1⟩ := WidgetWorld.callProcessAll_live calls s hlive
    rw [hempty, List.nil_append] at hw1
    exact ⟨s1, hs1, by simp [hw1], hw1, hu1⟩

/-- C9, for a widget just created and processed twice through its one handle:
`widgets` has size 2 and the live count of the widget is 3. -/
theorem process_appends_self_witness :
    ∃ s1, WidgetWorld.callProcessAll (Widget.create WidgetWorld.init "w").2
        [some 0, some 0] = .ok s1 ∧
      s1.widgets.length = 2 ∧ useCount s1.heap 0 = 3 := by
  obtain ⟨s1, hs1, hlen, -, hcount⟩ :=
    process_appends_self.2.2.1 (Widget.create WidgetWorld.init "w").2 [0, 0] rfl
      (by decide)
  exact ⟨s1, hs1, hlen, by rw [hcount 0]; decide⟩

/-! ### Item 22: list lemmas -/

theorem getElem?_concat_some {α : Type} (l : List α) (x y : α) (i : Nat) :
    (l ++ [x])[i]? = some y ↔ l[i]? = some y ∨ (i = l.length ∧ y = x) := by
  rcases Nat.lt_trichotomy i l.length with hlt | heq | hgt
  · rw [List.getElem?_append_left hlt]
    constructor
    · exact Or.inl
    · rintro (h | ⟨h, -⟩)
      · exact h
      · omega
  · subst heq
    simp [eq_comm]
  · have h1 : (l ++ [x])[i]? = none := by
      apply List.getElem?_eq_none
      simp
      omega
    have h2 : l[i]? = none := List.getElem?_eq_none (by omega)
    rw [h1, h2]
    constructor
    · intro h; cases h
    · rintro (h | ⟨h, -⟩)
      · cases h
      · omega

theorem getElem?_set_some {α : Type} (l : List α) (r i : Nat) (v y : α) :
    (l.set r v)[i]? = some y ↔
      (i = r ∧ r < l.length ∧ y = v) ∨ (i ≠ r ∧ l[i]? = some y) := by
  by_cases hir : i = r
  · subst hir
    by_cases hlt : i < l.length
    · rw [List.getElem?_set_self hlt]
      simp [hlt, eq_comm]
    · have h1 : (l.set i v)[i]? = none := List.getElem?_eq_none (by simp; omega)
      rw [h1]
      simp [hlt]
  · rw [List.getElem?_set_ne (Ne.symm hir)]
    simp [hir]

theorem set_getElem?_self {α : Type} (l : List α) (r : Nat) (v : α)
    (h : l[r]? = some v) : l.set r v = l := by
  apply List.ext_getElem?
  intro n
  by_cases hn : r = n
  · subst hn
    rw [List.getElem?_set_self (getElem?_lt_of_some h), h]
  · rw [List.getElem?_set_ne hn]

/-! ### Item 22: the statements keep unique ownership and the flags -/

theorem PimplState.WF_declare (st : PimplState) (x : UniqueWidgetImpl)
    (hwf : PimplState.WF st) :
    PimplState.WF { impls := st.impls ++ [some x],
                    vars := st.vars ++ [{ impl_ := some st.impls.length }] } := by
  obtain ⟨hown, halloc⟩ := hwf
  have hlt : ∀ (i a : Nat), st.vars[i]? = some (UniqueWidget.mk (some a)) →
      a < st.impls.length := by
    intro i a hi
    obtain ⟨y, hy⟩ := halloc i a hi
    exact getElem?_lt_of_some hy
  constructor
  · intro i j a hi hj
    simp only [getElem?_concat_some] at hi hj
    rcases hi with hi | ⟨hi, hia⟩ <;> rcases hj with hj | ⟨hj, hja⟩
    · exact hown i j a hi hj
    · have := hlt i a hi
      simp only [UniqueWidget.mk.injEq, Option.some.injEq] at hja
      omega
    · have := hlt j a hj
      simp only [UniqueWidget.mk.injEq, Option.some.injEq] at hia
      omega
    · omega
  · intro i a hi
    simp only [getElem?_concat_some] at hi ⊢
    rcases hi with hi | ⟨-, hia⟩
    · obtain ⟨y, hy⟩ := halloc i a hi
      exact ⟨y, Or.inl hy⟩
    · simp only [UniqueWidget.mk.injEq, Option.some.injEq] at hia
      exact ⟨x, Or.inr ⟨hia, rfl⟩⟩

theorem PimplState.Flagged_declare (st : PimplState) (moved : List Bool)
    (x : UniqueWidgetImpl) (hf : PimplState.Flagged st moved) :
    PimplState.Flagged { impls := st.impls ++ [some x],
                         vars := st.vars ++ [{ impl_ := some st.impls.length }] }
      (moved ++ [false]) := by
  obtain ⟨hlen, hflag⟩ := hf
  constructor
  · simp [hlen]
  · intro i
    simp only [getElem?_concat_some]
    constructor
    · rintro (h | ⟨-, h⟩)
      · exact Or.inl ((hflag i).1 h)
      · cases h
    · rintro (h | ⟨h, -⟩)
      · obtain ⟨a, ha⟩ := (hflag i).2 h
        exact ⟨a, Or.inl ha⟩
      · exact ⟨st.impls.length, Or.inr ⟨by omega, rfl⟩⟩

theorem PimplState.Flagged_owner (st : PimplState) (moved : List Bool) (r : Nat)
    (hwf : PimplState.WF st) (hf : PimplState.Flagged st moved)
    (hr : moved[r]? = some false) :
    ∃ a x, st.vars[r]? = some (UniqueWidget.mk (some a)) ∧
      st.impls[a]? = some (some x) := by
  obtain ⟨a, ha⟩ := (hf.2 r).2 hr
  obtain ⟨x, hx⟩ := hwf.2 r a ha
  exact ⟨a, x, ha, hx⟩

theorem UniqueWidget.copyCtor_good (st : PimplState) (moved : List Bool) (r : Nat)
    (hwf : PimplState.WF st) (hf : PimplState.Flagged st moved)
    (hr : moved[r]? = some false) :
    ∃ st1, UniqueWidget.copyCtor st r = .ok st1 ∧ PimplState.WF st1 ∧
      PimplState.Flagged st1 (moved ++ [false]) := by
  obtain ⟨a, x, ha, hx⟩ := PimplState.Flagged_owner st moved r hwf hf hr
  refine ⟨{ impls := st.impls ++ [some x],
            vars := st.vars ++ [{ impl_ := some st.impls.length }] }, ?_,
    PimplState.WF_declare st x hwf, PimplState.Flagged_declare st moved x hf⟩
  simp [UniqueWidget.copyCtor, ha, PimplState.deref, hx, PimplState.makeUnique]

theorem UniqueWidget.moveCtor_good (st : PimplState) (moved : List Bool) (r : Nat)
    (hwf : PimplState.WF st) (hf : PimplState.Flagged st moved)
    (hr : moved[r]? = some false) :
    ∃ st1, UniqueWidget.moveCtor st r = .ok st1 ∧ PimplState.WF st1 ∧
      PimplState.Flagged st1 (moved.set r true ++ [false]) := by
  obtain ⟨a, x, ha, hx⟩ := PimplState.Flagged_owner st moved r hwf hf hr
  have hrlt : r < st.vars.length := getElem?_lt_of_some ha
  refine ⟨{ st with vars := st.vars.set r { impl_ := none } ++ [{ impl_ := some a }] },
    by simp [UniqueWidget.moveCtor, ha], ⟨?_, ?_⟩, ⟨?_, ?_⟩⟩
  · intro i j b hi hj
    simp only [getElem?_concat_some, getElem?_set_some] at hi hj
    rcases hi with (⟨-, -, hi⟩ | ⟨hir, hi⟩) | ⟨hi, hib⟩
    · cases hi
    · rcases hj with (⟨-, -, hj⟩ | ⟨hjr, hj⟩) | ⟨hj, hjb⟩
      · cases hj
      · exact hwf.1 i j b hi hj
      · cases hjb
        exact absurd (hwf.1 i r _ hi ha) hir
    · rcases hj with (⟨-, -, hj⟩ | ⟨hjr, hj⟩) | ⟨hj, hjb⟩
      · cases hj
      · cases hib
        exact absurd (hwf.1 j r _ hj ha) hjr
      · simp at hi hj
        omega
  · intro i b hi
    simp only [getElem?_concat_some, getElem?_set_some] at hi
    rcases hi with (⟨-, -, hi⟩ | ⟨-, hi⟩) | ⟨-, hib⟩
    · cases hi
    · exact hwf.2 i b hi
    · cases hib
      exact ⟨x, hx⟩
  · simp [hf.1]
  · intro i
    simp only [getElem?_concat_some, getElem?_set_some]
    constructor
    · rintro ((⟨hir, hlt, -⟩ | ⟨hir, h⟩) | ⟨-, h⟩)
      · exact Or.inl (Or.inl ⟨hir, hrlt, trivial⟩)
      · exact Or.inl (Or.inr ⟨hir, (hf.2 i).1 h⟩)
      · cases h
    · rintro ((⟨-, -, h⟩ | ⟨hir, h⟩) | ⟨hi, -⟩)
      · cases h
      · obtain ⟨b, hb⟩ := (hf.2 i).2 h
        exact ⟨b, Or.inl (Or.inr ⟨hir, hb⟩)⟩
      · exact ⟨a, Or.inr ⟨by simp at hi ⊢; rw [hi, hf.1], rfl⟩⟩

theorem UniqueWidget.copyAssign_owned (st : PimplState) (t r a b : Nat)
    (xt xr : UniqueWidgetImpl) (htr : t ≠ r)
    (ht : st.vars[t]? = some (UniqueWidget.mk (some a)))
    (hr : st.vars[r]? = some (UniqueWidget.mk (some b)))
    (hxt : st.impls[a]? = some (some xt)) (hxr : st.impls[b]? = some (some xr)) :
    UniqueWidget.copyAssign st t r = .ok { st with impls := st.impls.set a (some xr) } := by
  simp [UniqueWidget.copyAssign, ht, hr, htr, PimplState.deref, hxt, hxr]

theorem UniqueWidget.copyAssign_self (st : PimplState) (t : Nat) (w : UniqueWidget)
    (ht : st.vars[t]? = some w) : UniqueWidget.copyAssign st t t = .ok st := by
  simp [UniqueWidget.copyAssign, ht]

theorem UniqueWidget.copyAssign_good (st : PimplState) (moved : List Bool) (t r : Nat)
    (hwf : PimplState.WF st) (hf : PimplState.Flagged st moved)
    (ht : moved[t]? = some false) (hr : moved[r]? = some false) :
    ∃ st1, UniqueWidget.copyAssign st t r = .ok st1 ∧ PimplState.WF st1 ∧
      PimplState.Flagged st1 moved := by
  obtain ⟨a, xt, hta, hxt⟩ := PimplState.Flagged_owner st moved t hwf hf ht
  obtain ⟨b, xr, hrb, hxr⟩ := PimplState.Flagged_owner st moved r hwf hf hr
  by_cases htr : t = r
  · subst htr
    exact ⟨st, UniqueWidget.copyAssign_self st t _ hta, hwf, hf⟩
  · refine ⟨_, UniqueWidget.copyAssign_owned st t r a b xt xr htr hta hrb hxt hxr,
      ⟨hwf.1, ?_⟩, hf⟩
    intro i c hi
    obtain ⟨y, hy⟩ := hwf.2 i c hi
    by_cases hca : c = a
    · subst hca
      exact ⟨xr, by simp [List.getElem?_set_self (getElem?_lt_of_some hxt)]⟩
    · exact ⟨y, by simp [List.getElem?_set_ne (Ne.symm hca), hy]⟩

theorem UniqueWidget.moveAssign_self (st : PimplState) (t a : Nat)
    (ht : st.vars[t]? = some (UniqueWidget.mk (some a))) :
    UniqueWidget.moveAssign st t t = .ok st := by
  have hlt : t < st.vars.length := getElem?_lt_of_some ht
  simp [UniqueWidget.moveAssign, ht, List.getElem?_set_self hlt, List.set_set,
    set_getElem?_self _ _ _ ht]

theorem UniqueWidget.moveAssign_owned (st : PimplState) (t r a b : Nat) (htr : t ≠ r)
    (ht : st.vars[t]? = some (UniqueWidget.mk (some a)))
    (hr : st.vars[r]? = some (UniqueWidget.mk (some b))) :
    UniqueWidget.moveAssign st t r =
      .ok { impls := st.impls.set a none,
            vars := (st.vars.set r { impl_ := none }).set t { impl_ := some b } } := by
  simp [UniqueWidget.moveAssign, ht, hr, List.getElem?_set_ne (Ne.symm htr)]

theorem UniqueWidget.moveAssign_good (st : PimplState) (moved : List Bool) (t r : Nat)
    (hwf : PimplState.WF st) (hf : PimplState.Flagged st moved)
    (ht : moved[t]? = some false) (hr : moved[r]? = some false) :
    ∃ st1, UniqueWidget.moveAssign st t r = .ok st1 ∧ PimplState.WF st1 ∧
      PimplState.Flagged st1 (if t = r then moved else moved.set r true) := by
  obtain ⟨a, xt, hta, hxt⟩ := PimplState.Flagged_owner st moved t hwf hf ht
  obtain ⟨b, xr, hrb, hxr⟩ := PimplState.Flagged_owner st moved r hwf hf hr
  by_cases htr : t = r
  · subst htr
    exact ⟨st, UniqueWidget.moveAssign_self st t a hta, hwf, by simpa using hf⟩
  · have hab : a ≠ b := fun h => htr (hwf.1 t r a hta (h ▸ hrb))
    have htlt : t < st.vars.length := getElem?_lt_of_some hta
    have hrlt : r < st.vars.length := getElem?_lt_of_some hrb
    refine ⟨_, UniqueWidget.moveAssign_owned st t r a b htr hta hrb, ⟨?_, ?_⟩, ?_⟩
    · intro i j c hi hj
      simp only [getElem?_set_some] at hi hj
      rcases hi with ⟨hit, -, hic⟩ | ⟨hit, ⟨-, -, hi⟩ | ⟨hir, hi⟩⟩
      · rcases hj with ⟨hjt, -, hjc⟩ | ⟨hjt, ⟨-, -, hj⟩ | ⟨hjr, hj⟩⟩
        · omega
        · cases hj
        · cases hic
          exact absurd (hwf.1 j r _ hj hrb) hjr
      · cases hi
      · rcases hj with ⟨hjt, -, hjc⟩ | ⟨hjt, ⟨-, -, hj⟩ | ⟨hjr, hj⟩⟩
        · cases hjc
          exact absurd (hwf.1 i r _ hi hrb) hir
        · cases hj
        · exact hwf.1 i j c hi hj
    · intro i c hi
      simp only [getElem?_set_some] at hi
      rcases hi with ⟨hit, -, hic⟩ | ⟨hit, ⟨-, -, hi⟩ | ⟨hir, hi⟩⟩
      · cases hic
        exact ⟨xr, by simp [List.getElem?_set_ne hab, hxr]⟩
      · cases hi
      · have hca : a ≠ c := fun h => hit (hwf.1 i t c hi (h ▸ hta))
        obtain ⟨y, hy⟩ := hwf.2 i c hi
        exact ⟨y, by simp [List.getElem?_set_ne hca, hy]⟩
    · rw [if_neg htr]
      refine ⟨by simp [hf.1], ?_⟩
      intro i
      simp only [getElem?_set_some]
      constructor
      · rintro (⟨hir, -, -⟩ | ⟨hir, h⟩)
        · subst hir
          exact Or.inr ⟨Ne.symm htr, Or.inl ⟨rfl, hrlt, trivial⟩⟩
        · have hit : i ≠ t := by
            intro hit
            subst hit
            rw [ht] at h
            cases h
          exact Or.inr ⟨hit, Or.inr ⟨hir, (hf.2 i).1 h⟩⟩
      · rintro (⟨-, -, h⟩ | ⟨hir, h⟩)
        · cases h
        · by_cases hit : i = t
          · exact ⟨b, Or.inl ⟨hit, by simpa using htlt, rfl⟩⟩
          · obtain ⟨c, hc⟩ := (hf.2 i).2 h
            exact ⟨c, Or.inr ⟨hit, Or.inr ⟨hir, hc⟩⟩⟩

theorem WOp.step_good (st : PimplState) (moved : List Bool) (op : WOp)
    (hwf : PimplState.WF st) (hf : PimplState.Flagged st moved)
    (ha : WOp.admissible moved op = true) :
    ∃ st1, WOp.step st op = .ok st1 ∧ PimplState.WF st1 ∧
      PimplState.Flagged st1 (WOp.mark moved op) := by
  cases op with
  | defaultCtor =>
    exact ⟨_, rfl, PimplState.WF_declare st _ hwf, PimplState.Flagged_declare st moved _ hf⟩
  | copyCtor r =>
    simp only [WOp.admissible, beq_iff_eq] at ha
    exact UniqueWidget.copyCtor_good st moved r hwf hf ha
  | moveCtor r =>
    simp only [WOp.admissible, beq_iff_eq] at ha
    exact UniqueWidget.moveCtor_good st moved r hwf hf ha
  | copyAssign t r =>
    simp only [WOp.admissible, Bool.and_eq_true, beq_iff_eq] at ha
    exact UniqueWidget.copyAssign_good st moved t r hwf hf ha.1 ha.2
  | moveAssign t r =>
    simp only [WOp.admissible, Bool.and_eq_true, beq_iff_eq] at ha
    exact UniqueWidget.moveAssign_good st moved t r hwf hf ha.1 ha.2

theorem WOp.run_good (ops : List WOp) :
    ∀ (st : PimplState) (moved : List Bool), PimplState.WF st →
      PimplState.Flagged st moved → WOp.disciplined moved ops = true →
      ∃ st1, WOp.run st ops = .ok st1 ∧ PimplState.WF st1 ∧
        PimplState.Flagged st1 (WOp.marks moved ops) := by
  induction ops with
  | nil => intro st moved hwf hf _; exact ⟨st, rfl, hwf, hf⟩
  | cons op rest ih =>
    intro st moved hwf hf hd
    simp only [WOp.disciplined, Bool.and_eq_true] at hd
    obtain ⟨st1, hs1, hwf1, hf1⟩ := WOp.step_good st moved op hwf hf hd.1
    obtain ⟨st2, hs2, hwf2, hf2⟩ := ih st1 _ hwf1 hf1 hd.2
    exact ⟨st2, by simp [WOp.run, hs1, hs2], hwf2, hf2⟩

theorem PimplState.WF_init : PimplState.WF PimplState.init := by
  constructor
  · intro i j a hi
    simp [PimplState.init] at hi
  · intro i a hi
    simp [PimplState.init] at hi

theorem PimplState.Flagged_init : PimplState.Flagged PimplState.init [] := by
  refine ⟨rfl, fun i => ⟨?_, ?_⟩⟩ <;> intro h <;> simp at h

/-! ### Unique ownership holds in every reachable state -/

theorem UniqueWidget.moveCtor_WF (st st1 : PimplState) (r : Nat)
    (hwf : PimplState.WF st) (hs : UniqueWidget.moveCtor st r = .ok st1) :
    PimplState.WF st1 := by
  unfold UniqueWidget.moveCtor at hs
  cases hr : st.vars[r]? with
  | none => simp [hr] at hs
  | some w =>
    obtain ⟨p⟩ := w
    simp only [hr, Except.ok.injEq] at hs
    subst hs
    constructor
    · intro i j b hi hj
      simp only [getElem?_concat_some, getElem?_set_some] at hi hj
      rcases hi with (⟨-, -, hi⟩ | ⟨hir, hi⟩) | ⟨hi, hib⟩
      · cases hi
      · rcases hj with (⟨-, -, hj⟩ | ⟨hjr, hj⟩) | ⟨hj, hjb⟩
        · cases hj
        · exact hwf.1 i j b hi hj
        · cases hjb
          exact absurd (hwf.1 i r _ hi hr) hir
      · rcases hj with (⟨-, -, hj⟩ | ⟨hjr, hj⟩) | ⟨hj, hjb⟩
        · cases hj
        · cases hib
          exact absurd (hwf.1 j r _ hj hr) hjr
        · simp at hi hj
          omega
    · intro i b hi
      simp only [getElem?_concat_some, getElem?_set_some] at hi
      rcases hi with (⟨-, -, hi⟩ | ⟨-, hi⟩) | ⟨-, hib⟩
      · cases hi
      · exact hwf.2 i b hi
      · cases hib
        exact hwf.2 r _ hr

theorem PimplState.WF_set_impl (st : PimplState) (a : Nat) (x y : UniqueWidgetImpl)
    (hwf : PimplState.WF st) (ha : st.impls[a]? = some (some x)) :
    PimplState.WF { st with impls := st.impls.set a (some y) } := by
  refine ⟨hwf.1, ?_⟩
  intro i c hi
  obtain ⟨z, hz⟩ := hwf.2 i c hi
  by_cases hca : c = a
  · subst hca
    exact ⟨y, by simp [List.getElem?_set_self (getElem?_lt_of_some ha)]⟩
  · exact ⟨z, by simp [List.getElem?_set_ne (Ne.symm hca), hz]⟩

theorem UniqueWidget.copyAssign_WF (st st1 : PimplState) (t r : Nat)
    (hwf : PimplState.WF st) (hs : UniqueWidget.copyAssign st t r = .ok st1) :
    PimplState.WF st1 := by
  unfold UniqueWidget.copyAssign at hs
  cases ht : st.vars[t]? with
  | none => simp [ht] at hs
  | some tw =>
    cases hr : st.vars[r]? with
    | none => simp [ht, hr] at hs
    | some rw =>
      simp only [ht, hr] at hs
      by_cases htr : t = r
      · simp only [htr, ne_eq, not_true_eq_false, if_false, Except.ok.injEq] at hs
        subst hs
        exact hwf
      · simp only [ne_eq, htr, not_false_eq_true, if_true] at hs
        cases hd : PimplState.deref st rw.impl_ with
        | error e => simp [hd] at hs
        | ok x =>
          simp only [hd] at hs
          cases hp : tw.impl_ with
          | none => simp [hp] at hs
          | some a =>
            simp only [hp] at hs
            cases hq : st.impls[a]? with
            | none => simp [hq] at hs
            | some oy =>
              cases oy with
              | none => simp [hq] at hs
              | some y =>
                simp only [hq, Except.ok.injEq] at hs
                subst hs
                exact PimplState.WF_set_impl st a y x hwf hq

theorem PimplState.WF_moveAssign_vars (st : PimplState) (t r : Nat) (p q : Option Nat)
    (impls1 : List (Option UniqueWidgetImpl)) (htr : t ≠ r)
    (hwf : PimplState.WF st)
    (ht : st.vars[t]? = some (UniqueWidget.mk p))
    (hr : st.vars[r]? = some (UniqueWidget.mk q))
    (himpls : ∀ a, p ≠ some a → impls1[a]? = st.impls[a]?) :
    PimplState.WF { impls := impls1,
                    vars := (st.vars.set r { impl_ := none }).set t { impl_ := q } } := by
  constructor
  · intro i j c hi hj
    simp only [getElem?_set_some] at hi hj
    rcases hi with ⟨hit, -, hic⟩ | ⟨hit, ⟨-, -, hi⟩ | ⟨hir, hi⟩⟩
    · rcases hj with ⟨hjt, -, hjc⟩ | ⟨hjt, ⟨-, -, hj⟩ | ⟨hjr, hj⟩⟩
      · omega
      · cases hj
      · cases hic
        exact absurd (hwf.1 j r _ hj hr) hjr
    · cases hi
    · rcases hj with ⟨hjt, -, hjc⟩ | ⟨hjt, ⟨-, -, hj⟩ | ⟨hjr, hj⟩⟩
      · cases hjc
        exact absurd (hwf.1 i r _ hi hr) hir
      · cases hj
      · exact hwf.1 i j c hi hj
  · intro i c hi
    simp only [getElem?_set_some] at hi
    rcases hi with ⟨hit, -, hic⟩ | ⟨hit, ⟨-, -, hi⟩ | ⟨hir, hi⟩⟩
    · cases hic
      have hpc : p ≠ some c := by
        intro hpc
        subst hpc
        exact htr (hwf.1 t r c ht hr)
      obtain ⟨y, hy⟩ := hwf.2 r c hr
      exact ⟨y, by simp only []; rw [himpls c hpc]; exact hy⟩
    · cases hi
    · have hpc : p ≠ some c := by
        intro hpc
        subst hpc
        exact hit (hwf.1 i t c hi ht)
      obtain ⟨y, hy⟩ := hwf.2 i c hi
      exact ⟨y, by simp only []; rw [himpls c hpc]; exact hy⟩

theorem UniqueWidget.moveAssign_WF (st st1 : PimplState) (t r : Nat)
    (hwf : PimplState.WF st) (hs : UniqueWidget.moveAssign st t r = .ok st1) :
    PimplState.WF st1 := by
  unfold UniqueWidget.moveAssign at hs
  cases ht : st.vars[t]? with
  | none => simp [ht] at hs
  | some tw =>
    cases hr : st.vars[r]? with
    | none => simp [ht, hr] at hs
    | some rw =>
      obtain ⟨p⟩ := tw
      obtain ⟨q⟩ := rw
      have hrlt : r < st.vars.length := getElem?_lt_of_some hr
      simp only [ht, hr] at hs
      by_cases htr : t = r
      · subst htr
        simp only [List.getElem?_set_self hrlt, List.set_set, Except.ok.injEq] at hs
        rw [set_getElem?_self _ _ _ hr] at hs
        subst hs
        exact hwf
      · simp only [List.getElem?_set_ne (Ne.symm htr), ht] at hs
        cases p with
        | none =>
          simp only [Except.ok.injEq] at hs
          subst hs
          exact PimplState.WF_moveAssign_vars st t r none q st.impls htr hwf ht hr
            (fun _ _ => rfl)
        | some old =>
          simp only [Except.ok.injEq] at hs
          subst hs
          refine PimplState.WF_moveAssign_vars st t r (some old) q _ htr hwf ht hr ?_
          intro a ha
          have hne : old ≠ a := fun h => ha (by rw [h])
          exact List.getElem?_set_ne hne

theorem UniqueWidget.copyCtor_WF (st st1 : PimplState) (r : Nat)
    (hwf : PimplState.WF st) (hs : UniqueWidget.copyCtor st r = .ok st1) :
    PimplState.WF st1 := by
  unfold UniqueWidget.copyCtor at hs
  cases hr : st.vars[r]? with
  | none => simp [hr] at hs
  | some w =>
    simp only [hr] at hs
    cases hd : PimplState.deref st w.impl_ with
    | error e => simp [hd] at hs
    | ok x =>
      simp only [hd, PimplState.makeUnique, Except.ok.injEq] at hs
      subst hs
      exact PimplState.WF_declare st x hwf

theorem WOp.step_WF (st st1 : PimplState) (op : WOp)
    (hwf : PimplState.WF st) (hs : WOp.step st op = .ok st1) : PimplState.WF st1 := by
  cases op with
  | defaultCtor =>
    simp only [WOp.step, Except.ok.injEq] at hs
    subst hs
    exact PimplState.WF_declare st _ hwf
  | copyCtor r => exact UniqueWidget.copyCtor_WF st st1 r hwf hs
  | moveCtor r => exact UniqueWidget.moveCtor_WF st st1 r hwf hs
  | copyAssign t r => exact UniqueWidget.copyAssign_WF st st1 t r hwf hs
  | moveAssign t r => exact UniqueWidget.moveAssign_WF st st1 t r hwf hs

theorem WOp.run_WF (ops : List WOp) :
    ∀ st st1 : PimplState, PimplState.WF st → WOp.run st ops = .ok st1 →
      PimplState.WF st1 := by
  induction ops with
  | nil =>
    intro st st1 hwf hs
    simp only [WOp.run, Except.ok.injEq] at hs
    subst hs
    exact hwf
  | cons op rest ih =>
    intro st st1 hwf hs
    simp only [WOp.run] at hs
    cases h1 : WOp.step st op with
    | error e => simp [h1] at hs
    | ok st2 =>
      simp only [h1] at hs
      exact ih st2 st1 (WOp.step_WF st st2 op hwf h1) hs

theorem UniqueWidget.mutate_WF (st st1 : PimplState) (v : Nat) (x : UniqueWidgetImpl)
    (hwf : PimplState.WF st) (hs : UniqueWidget.mutate st v x = .ok st1) :
    PimplState.WF st1 := by
  unfold UniqueWidget.mutate at hs
  cases hv : st.vars[v]? with
  | none => simp [hv] at hs
  | some t =>
    simp only [hv] at hs
    cases hp : t.impl_ with
    | none => simp [hp] at hs
    | some a =>
      simp only [hp] at hs
      cases hq : st.impls[a]? with
      | none => simp [hq] at hs
      | some oy =>
        cases oy with
        | none => simp [hq] at hs
        | some y =>
          simp only [hq, Except.ok.injEq] at hs
          subst hs
          exact PimplState.WF_set_impl st a y x hwf hq

theorem PimplState.unique_of_reachable (st : PimplState) (hr : PimplState.Reachable st) :
    PimplState.WF st := by
  induction hr with
  | init => exact PimplState.WF_init
  | step st st1 op _ hs ih => exact WOp.step_WF st st1 op ih hs
  | write st st1 v x _ hs ih => exact UniqueWidget.mutate_WF st st1 v x ih hs

theorem PimplState.reachable_of_run (ops : List WOp) :
    ∀ st st1 : PimplState, PimplState.Reachable st → WOp.run st ops = .ok st1 →
      PimplState.Reachable st1 := by
  induction ops with
  | nil =>
    intro st st1 hr hs
    simp only [WOp.run, Except.ok.injEq] at hs
    subst hs
    exact hr
  | cons op rest ih =>
    intro st st1 hr hs
    simp only [WOp.run] at hs
    cases h1 : WOp.step st op with
    | error e => simp [h1] at hs
    | ok st2 =>
      simp only [h1] at hs
      exact ih st2 st1 (PimplState.Reachable.step st st2 op hr h1) hs

theorem pimplAB_reachable : PimplState.Reachable pimplAB := by
  have r1 : PimplState.Reachable
      { impls := [some { vec := [], id := "" }], vars := [{ impl_ := some 0 }] } :=
    PimplState.Reachable.step PimplState.init _ .defaultCtor PimplState.Reachable.init rfl
  have r2 : PimplState.Reachable
      { impls := [some { vec := [1, 2], id := "a" }], vars := [{ impl_ := some 0 }] } :=
    PimplState.Reachable.write _ _ 0 { vec := [1, 2], id := "a" } r1 rfl
  have r3 : PimplState.Reachable
      { impls := [some { vec := [1, 2], id := "a" }, some { vec := [], id := "" }],
        vars := [{ impl_ := some 0 }, { impl_ := some 1 }] } :=
    PimplState.Reachable.step _ _ .defaultCtor r2 rfl
  exact PimplState.Reachable.write _ _ 1 { vec := [9], id := "b" } r3 rfl

/-! ### C7, C8, C10 -/

/-- C10 (amended): every program of default constructions, copy and move
constructions and copy and move assignments in which no `UniqueWidget` is used
again once it has been moved from runs without dereferencing an empty handle,
and at its end every widget that has not been moved from holds a non-empty
`impl_` that points to an allocated implementation, while every moved-from
widget holds an empty `impl_`. -/
theorem uniqueWidget_nonempty_unless_moved (ops : List WOp)
    (hd : WOp.disciplined [] ops = true) :
    ∃ st, WOp.run PimplState.init ops = .ok st ∧
      st.vars.length = (WOp.marks [] ops).length ∧
      ∀ i : Nat,
        ((WOp.marks [] ops)[i]? = some false →
          ∃ a x, st.vars[i]? = some (UniqueWidget.mk (some a)) ∧
            st.impls[a]? = some (some x)) ∧
        ((WOp.marks [] ops)[i]? = some true →
          st.vars[i]? = some (UniqueWidget.mk none)) := by
  obtain ⟨st, hrun, hwf, hf⟩ :=
    WOp.run_good ops PimplState.init [] PimplState.WF_init PimplState.Flagged_init hd
  refine ⟨st, hrun, hf.1.symm, fun i => ⟨fun h => ?_, (hf.2 i).1⟩⟩
  exact PimplState.Flagged_owner st _ i hwf hf h

/-- C10, on `main`: its five statements use no moved-from widget; at the end
`uw3` holds an implementation and `uw1`, `uw2` are moved-from and empty. -/
theorem uniqueWidget_nonempty_unless_moved_witness :
    WOp.disciplined [] pimplMain = true ∧
    ∃ st, WOp.run PimplState.init pimplMain = .ok st ∧
      (∃ a x, st.vars[2]? = some (UniqueWidget.mk (some a)) ∧
        st.impls[a]? = some (some x)) ∧
      st.vars[0]? = some (UniqueWidget.mk none) ∧
      st.vars[1]? = some (UniqueWidget.mk none) := by
  obtain ⟨st, hrun, -, hall⟩ := uniqueWidget_nonempty_unless_moved pimplMain (by decide)
  exact ⟨by decide, st, hrun, (hall 2).1 (by decide), (hall 0).2 (by decide),
    (hall 1).2 (by decide)⟩

/-- C10 as stated fails: after `UniqueWidget uw1; auto uw2(move(uw1));` the
widget `uw1` holds an empty handle, and copy construction from it
dereferences the empty handle. -/
theorem uniqueWidget_moved_from_is_empty :
    (WOp.run PimplState.init [.defaultCtor, .moveCtor 0]).toOption.map
        (fun st => st.vars[0]?) = some (some (UniqueWidget.mk none)) ∧
    (WOp.run PimplState.init [.defaultCtor, .moveCtor 0, .copyCtor 0]).toOption = none ∧
    (match WOp.run PimplState.init [.defaultCtor, .moveCtor 0, .copyCtor 0] with
      | .error e => e = UsageError.nullDeref
      | .ok _ => False) := by
  refine ⟨by decide, by decide, ?_⟩
  simp [WOp.run, WOp.step, UniqueWidget.defaultCtor, PimplState.makeUnique,
    UniqueWidget.moveCtor, UniqueWidget.copyCtor, PimplState.init, PimplState.deref]

theorem UniqueWidget.hidden_owned (st : PimplState) (v a : Nat) (x : UniqueWidgetImpl)
    (hv : st.vars[v]? = some (UniqueWidget.mk (some a)))
    (hx : st.impls[a]? = some (some x)) : UniqueWidget.hidden st v = .ok x := by
  simp [UniqueWidget.hidden, hv, PimplState.deref, hx]

theorem UniqueWidget.mutate_owned (st : PimplState) (v a : Nat) (x y : UniqueWidgetImpl)
    (hv : st.vars[v]? = some (UniqueWidget.mk (some a)))
    (hx : st.impls[a]? = some (some x)) :
    UniqueWidget.mutate st v y = .ok { st with impls := st.impls.set a (some y) } := by
  simp [UniqueWidget.mutate, hv, hx]

/-- C7: let `A` hold a hidden implementation with any contents `xa`, in any
state a program can reach by its statements and by writes to the hidden state
of its widgets. Copy-constructing `B` from `A` gives `B` an
implementation object at another address with contents `xa`; copy-assigning
`A` into another widget `B` that holds an implementation leaves `B` with its
own object, distinct from the one of `A`, now with contents `xa`. In both
cases the hidden state of `A` is still `xa` after the copy, and after any
later write to the hidden state of `B`. Assigning `A` to itself leaves the
whole state unchanged. -/
theorem copy_is_deep (st : PimplState) (A pa : Nat) (xa : UniqueWidgetImpl)
    (hreach : PimplState.Reachable st)
    (hA : st.vars[A]? = some (UniqueWidget.mk (some pa)))
    (hxa : st.impls[pa]? = some (some xa)) :
    (∃ st1 pb, UniqueWidget.copyCtor st A = .ok st1 ∧
      st1.vars = st.vars ++ [UniqueWidget.mk (some pb)] ∧ pb ≠ pa ∧
      UniqueWidget.hidden st1 st.vars.length = .ok xa ∧
      UniqueWidget.hidden st1 A = .ok xa ∧
      ∀ y, ∃ st2, UniqueWidget.mutate st1 st.vars.length y = .ok st2 ∧
        UniqueWidget.hidden st2 st.vars.length = .ok y ∧
        UniqueWidget.hidden st2 A = .ok xa) ∧
    (∀ (B pb : Nat) (xb : UniqueWidgetImpl), B ≠ A →
      st.vars[B]? = some (UniqueWidget.mk (some pb)) →
      st.impls[pb]? = some (some xb) →
      ∃ st1, UniqueWidget.copyAssign st B A = .ok st1 ∧ st1.vars = st.vars ∧
        pb ≠ pa ∧
        UniqueWidget.hidden st1 B = .ok xa ∧ UniqueWidget.hidden st1 A = .ok xa ∧
        ∀ y, ∃ st2, UniqueWidget.mutate st1 B y = .ok st2 ∧
          UniqueWidget.hidden st2 B = .ok y ∧ UniqueWidget.hidden st2 A = .ok xa) ∧
    UniqueWidget.copyAssign st A A = .ok st := by
  have hwf : PimplState.WF st := PimplState.unique_of_reachable st hreach
  have hAlt : A < st.vars.length := getElem?_lt_of_some hA
  have hpalt : pa < st.impls.length := getElem?_lt_of_some hxa
  refine ⟨?_, ?_, UniqueWidget.copyAssign_self st A _ hA⟩
  · have hne : st.impls.length ≠ pa := by omega
    have hB1 : (st.vars ++ [UniqueWidget.mk (some st.impls.length)])[st.vars.length]? =
        some (UniqueWidget.mk (some st.impls.length)) := by simp
    have hA1 : (st.vars ++ [UniqueWidget.mk (some st.impls.length)])[A]? =
        some (UniqueWidget.mk (some pa)) := by
      rw [List.getElem?_append_left hAlt]
      exact hA
    have hxb1 : (st.impls ++ [some xa])[st.impls.length]? = some (some xa) := by simp
    have hxa1 : (st.impls ++ [some xa])[pa]? = some (some xa) := by
      rw [List.getElem?_append_left hpalt]
      exact hxa
    refine ⟨{ impls := st.impls ++ [some xa],
              vars := st.vars ++ [{ impl_ := some st.impls.length }] },
      st.impls.length, ?_, rfl, hne, ?_, ?_, ?_⟩
    · simp [UniqueWidget.copyCtor, hA, PimplState.deref, hxa, PimplState.makeUnique]
    · exact UniqueWidget.hidden_owned _ _ _ _ hB1 hxb1
    · exact UniqueWidget.hidden_owned _ _ _ _ hA1 hxa1
    · intro y
      refine ⟨_, UniqueWidget.mutate_owned _ _ _ xa y hB1 hxb1, ?_, ?_⟩
      · refine UniqueWidget.hidden_owned _ _ _ _ hB1 ?_
        exact List.getElem?_set_self (by simp)
      · refine UniqueWidget.hidden_owned _ _ _ _ hA1 ?_
        simp only []
        rw [List.getElem?_set_ne hne]
        exact hxa1
  · intro B pb xb hBA hB hxb
    have hpb : pb ≠ pa := fun h => hBA (hwf.1 B A pa (h ▸ hB) hA)
    have hpblt : pb < st.impls.length := getElem?_lt_of_some hxb
    have hxb1 : (st.impls.set pb (some xa))[pb]? = some (some xa) :=
      List.getElem?_set_self hpblt
    have hxa1 : (st.impls.set pb (some xa))[pa]? = some (some xa) := by
      rw [List.getElem?_set_ne hpb]
      exact hxa
    refine ⟨_, UniqueWidget.copyAssign_owned st B A pb pa xb xa hBA hB hA hxb hxa, rfl,
      hpb, ?_, ?_, ?_⟩
    · exact UniqueWidget.hidden_owned _ _ _ _ hB hxb1
    · exact UniqueWidget.hidden_owned _ _ _ _ hA hxa1
    · intro y
      refine ⟨_, UniqueWidget.mutate_owned _ B pb xa y hB hxb1, ?_, ?_⟩
      · refine UniqueWidget.hidden_owned _ _ _ _ hB ?_
        exact List.getElem?_set_self (by simp; exact hpblt)
      · refine UniqueWidget.hidden_owned _ _ _ _ hA ?_
        simp only []
        rw [List.getElem?_set_ne hpb]
        exact hxa1

/-- C7, on two widgets with different, non-default hidden states: `A` holds
`vec = [1, 2]`, `id = "a"` and `B` holds `vec = [9]`, `id = "b"`. A widget
copy-constructed from `A` owns another object that holds `[1, 2]`, `"a"`;
after `B = A` the widget `B` holds `[1, 2]`, `"a"` in its own object, and a
later write of `[7]`, `"c"` to `B` leaves `A` at `[1, 2]`, `"a"`. -/
theorem copy_is_deep_witness :
    (∃ st1 pb, UniqueWidget.copyCtor pimplAB 0 = .ok st1 ∧ pb ≠ 0 ∧
      st1.vars = pimplAB.vars ++ [UniqueWidget.mk (some pb)] ∧
      UniqueWidget.hidden st1 2 = .ok { vec := [1, 2], id := "a" } ∧
      UniqueWidget.hidden st1 0 = .ok { vec := [1, 2], id := "a" }) ∧
    (UniqueWidget.hidden pimplAB 1 = .ok { vec := [9], id := "b" } ∧
      ∃ st1, UniqueWidget.copyAssign pimplAB 1 0 = .ok st1 ∧
        UniqueWidget.hidden st1 1 = .ok { vec := [1, 2], id := "a" } ∧
        UniqueWidget.hidden st1 0 = .ok { vec := [1, 2], id := "a" } ∧
        ∃ st2, UniqueWidget.mutate st1 1 { vec := [7], id := "c" } = .ok st2 ∧
          UniqueWidget.hidden st2 1 = .ok { vec := [7], id := "c" } ∧
          UniqueWidget.hidden st2 0 = .ok { vec := [1, 2], id := "a" }) := by
  obtain ⟨⟨st1, pb, hc, hvars, hne, hB, hA, -⟩, hassign, -⟩ :=
    copy_is_deep pimplAB 0 0 { vec := [1, 2], id := "a" } pimplAB_reachable rfl rfl
  obtain ⟨st3, ha, -, -, hB3, hA3, hmut⟩ :=
    hassign 1 1 { vec := [9], id := "b" } (by decide) rfl rfl
  obtain ⟨st4, hm, hB4, hA4⟩ := hmut { vec := [7], id := "c" }
  exact ⟨⟨st1, pb, hc, hne, hvars, hB, hA⟩, rfl, st3, ha, hB3, hA3, st4, hm, hB4, hA4⟩

/-- C8 (amended): a default-constructed `UniqueWidget` holds a non-empty
handle to a newly constructed implementation object, with empty `vec` and
`id`; a default-constructed `SharedWidget` holds an empty handle and no
implementation object is constructed for it. -/
theorem default_ctor_handles (st : PimplState) (h : Heap SharedWidgetImpl) :
    (UniqueWidget.defaultCtor st).vars =
      st.vars ++ [UniqueWidget.mk (some st.impls.length)] ∧
    st.impls[st.impls.length]? = none ∧
    (UniqueWidget.defaultCtor st).impls = st.impls ++ [some { vec := [], id := "" }] ∧
    UniqueWidget.hidden (UniqueWidget.defaultCtor st) st.vars.length =
      .ok { vec := [], id := "" } ∧
    SharedWidget.defaultCtor h = ({ impl_ := none }, h) := by
  refine ⟨rfl, by simp, rfl, ?_, rfl⟩
  exact UniqueWidget.hidden_owned _ _ st.impls.length _
    (by simp [UniqueWidget.defaultCtor, PimplState.makeUnique])
    (by simp [UniqueWidget.defaultCtor, PimplState.makeUnique])

/-- C8 as stated fails for `SharedWidget`: the handle of a default-constructed
`SharedWidget` is empty and the heap has no implementation object. -/
theorem sharedWidget_default_is_empty :
    (SharedWidget.defaultCtor []).1.impl_ = none ∧
    ¬ (∃ o, (SharedWidget.defaultCtor []).1.impl_ = some o) ∧
    (SharedWidget.defaultCtor []).2.length = 0 := by
  refine ⟨rfl, ?_, rfl⟩
  rintro ⟨o, ho⟩
  cases ho

end EMC
